import Mathlib

/-!
Shallow embedding of the voting-ring simulation engine (`src/lib/voting-game.ts`).

Randomness: the engine draws from a shared pseudo-random source
(`Math.random()`).  We model the source as a stream `rng : Nat → Nat`
together with a read counter `k`; the `n`-th call to `Math.random()` reads
`rng n`.  `Math.floor(Math.random() * xs.length)` yields an arbitrary index
below `xs.length`, modelled as `rng k % xs.length`.  Indexing an empty array
(JS `undefined`) is modelled by `Option`: `randomChoice [] r = none`.

JS `Map` (insertion-ordered) is modelled as an association list
`List (Nat × Nat)`; `Map.set` updates in place or appends a fresh key, and
iteration follows list order, matching JS semantics.
-/

namespace VotingRings

inductive ActorType where
  | loyalist
  | traitor
deriving DecidableEq, Repr

inductive ActorStatus where
  | active
  | removed
deriving DecidableEq, Repr

inductive GameType where
  | random
  | fixate
deriving DecidableEq, Repr

inductive EndCondition where
  | first_traitor_removed
  | all_one_type
deriving DecidableEq, Repr

inductive Outcome where
  | traitor_removed
  | no_loyalists
  | all_loyalists
  | all_traitors
deriving DecidableEq, Repr

structure Actor where
  id : Nat
  type : ActorType
  status : ActorStatus
deriving DecidableEq, Repr

/-- `votes.get(key) || 0` on a JS `Map` modelled as an association list. -/
def mapGet (m : List (Nat × Nat)) (key : Nat) : Nat :=
  match m.find? (fun p => decide (p.1 = key)) with
  | some p => p.2
  | none => 0

/-- `m.set(key, v)` on a JS `Map`: update in place, or append a fresh key. -/
def mapSet (m : List (Nat × Nat)) (key v : Nat) : List (Nat × Nat) :=
  if m.any (fun p => decide (p.1 = key)) then
    m.map (fun p => if p.1 = key then (key, v) else p)
  else
    m ++ [(key, v)]

/-- `this.actors.filter(a => a.status === 'active')` -/
def getActiveActors (actors : List Actor) : List Actor :=
  actors.filter (fun a => decide (a.status = ActorStatus.active))

/-- `this.actors.filter(a => a.status === 'active' && a.type === 'loyalist')` -/
def getActiveLoyalists (actors : List Actor) : List Actor :=
  actors.filter (fun a =>
    decide (a.status = ActorStatus.active) && decide (a.type = ActorType.loyalist))

/-- `this.actors.filter(a => a.status === 'active' && a.type === 'traitor')` -/
def getActiveTraitors (actors : List Actor) : List Actor :=
  actors.filter (fun a =>
    decide (a.status = ActorStatus.active) && decide (a.type = ActorType.traitor))

/-- `array[Math.floor(Math.random() * array.length)]` with one random draw
`r`; returns `none` when the array is empty (JS `undefined`). -/
def randomChoice {α : Type} (xs : List α) (r : Nat) : Option α :=
  xs.get? (r % xs.length)

/-- `VotingGame.getSuspectForLoyalist`.  Returns the chosen suspect id
(`none` models `NO_VALID_TARGET`), the updated suspect map, and the updated
rng read counter. -/
def getSuspectForLoyalist (rng : Nat → Nat) (actors : List Actor) (lid : Nat)
    (susp : List (Nat × Nat)) (k : Nat) : Option Nat × List (Nat × Nat) × Nat :=
  if ((getActiveActors actors).filter (fun a => decide (¬ a.id = lid))).length = 0 then
    (none, susp, k)
  else
    match (susp.find? (fun p => decide (p.1 = lid))).map (fun p => p.2) with
    | some cur =>
      if ((getActiveActors actors).filter (fun a => decide (¬ a.id = lid))).any
          (fun a => decide (a.id = cur)) then (some cur, susp, k)
      else
        match randomChoice ((getActiveActors actors).filter (fun a => decide (¬ a.id = lid)))
            (rng k) with
        | some a => (some a.id, mapSet susp lid a.id, k + 1)
        | none => (none, susp, k + 1)
    | none =>
      match randomChoice ((getActiveActors actors).filter (fun a => decide (¬ a.id = lid)))
          (rng k) with
      | some a => (some a.id, mapSet susp lid a.id, k + 1)
      | none => (none, susp, k + 1)

/-- One voter's action inside `VotingGame.conductVote`: possibly draw a
target and record the vote.  State: (vote tally, suspect map, rng counter). -/
def voteStep (rng : Nat → Nat) (gt : GameType) (actors : List Actor)
    (eligible : Option (List Actor)) (st : List (Nat × Nat) × List (Nat × Nat) × Nat)
    (actor : Actor) : Option (List (Nat × Nat) × List (Nat × Nat) × Nat) :=
  match eligible with
  | some ts =>
    match randomChoice ts (rng st.2.2) with
    | some t => some (mapSet st.1 t.id (mapGet st.1 t.id + 1), st.2.1, st.2.2 + 1)
    | none => none
  | none =>
    match actor.type with
    | ActorType.loyalist =>
      match gt with
      | GameType.fixate =>
        match getSuspectForLoyalist rng actors actor.id st.2.1 st.2.2 with
        | (some tid, s1, k1) => some (mapSet st.1 tid (mapGet st.1 tid + 1), s1, k1)
        | (none, s1, k1) => some (st.1, s1, k1)
      | GameType.random =>
        if ((getActiveActors actors).filter (fun a => decide (¬ a.id = actor.id))).length > 0
        then
          match randomChoice ((getActiveActors actors).filter
              (fun a => decide (¬ a.id = actor.id))) (rng st.2.2) with
          | some t => some (mapSet st.1 t.id (mapGet st.1 t.id + 1), st.2.1, st.2.2 + 1)
          | none => none
        else some (st.1, st.2.1, st.2.2)
    | ActorType.traitor =>
      if (getActiveLoyalists actors).length > 0 then
        match randomChoice (getActiveLoyalists actors) (rng st.2.2) with
        | some t => some (mapSet st.1 t.id (mapGet st.1 t.id + 1), st.2.1, st.2.2 + 1)
        | none => none
      else some (st.1, st.2.1, st.2.2)

/-- `VotingGame.conductVote(eligibleTargets?)`: every active actor votes in
roster order. -/
def conductVote (rng : Nat → Nat) (gt : GameType) (actors : List Actor)
    (eligible : Option (List Actor)) (susp : List (Nat × Nat)) (k : Nat) :
    Option (List (Nat × Nat) × List (Nat × Nat) × Nat) :=
  (getActiveActors actors).foldl
    (fun acc actor => acc.bind (fun st => voteStep rng gt actors eligible st actor))
    (some ([], susp, k))

/-- `VotingGame.findMostVoted`: fold over the tally in insertion order,
keeping the ids tied for the running maximum. -/
def findMostVoted (votes : List (Nat × Nat)) : List Nat :=
  (votes.foldl
    (fun (acc : Nat × List Nat) e =>
      if e.2 > acc.1 then (e.2, [e.1])
      else if e.2 = acc.1 then (acc.1, acc.2 ++ [e.1])
      else acc)
    (0, [])).2

/-- `actor.status = 'removed'` after `this.actors.find(a => a.id === rid)`:
mark the first actor with the given id as removed. -/
def markRemoved (actors : List Actor) (rid : Nat) : List Actor :=
  match actors with
  | [] => []
  | a :: rest =>
    if a.id = rid then { a with status := ActorStatus.removed } :: rest
    else a :: markRemoved rest rid

/-- The tie-break `while` loop of `VotingGame.resolvePhaseOne`, with the
remaining iteration budget as fuel (`MAX_TIE_BREAKS = 10` initially).
Returns (final tally, final most-voted set, suspects, rng counter,
number of tie-break attempts performed). -/
def tieBreakLoop (rng : Nat → Nat) (gt : GameType) (actors : List Actor) :
    Nat → List (Nat × Nat) → List Nat → List (Nat × Nat) → Nat → Nat →
    Option (List (Nat × Nat) × List Nat × List (Nat × Nat) × Nat × Nat)
  | 0, votes, mostVoted, susp, k, attempts => some (votes, mostVoted, susp, k, attempts)
  | fuel + 1, votes, mostVoted, susp, k, attempts =>
    if mostVoted.length > 1 then
      let tiedActors := actors.filter (fun a =>
        decide (a.id ∈ mostVoted) && decide (a.status = ActorStatus.active))
      match conductVote rng gt actors (some tiedActors) susp k with
      | some (v, s, k1) => tieBreakLoop rng gt actors fuel v (findMostVoted v) s k1 (attempts + 1)
      | none => none
    else some (votes, mostVoted, susp, k, attempts)

/-- `VotingGame.resolvePhaseOne` up to (but not including) the final
removal choice. -/
def phaseOneCore (rng : Nat → Nat) (gt : GameType) (actors : List Actor)
    (susp : List (Nat × Nat)) (k : Nat) :
    Option (List (Nat × Nat) × List Nat × List (Nat × Nat) × Nat × Nat) :=
  match conductVote rng gt actors none susp k with
  | some (v, s, k1) => tieBreakLoop rng gt actors 10 v (findMostVoted v) s k1 0
  | none => none

/-- `VotingGame.resolvePhaseOne`: returns (final tally, removed id, updated
roster, suspects, rng counter). -/
def resolvePhaseOne (rng : Nat → Nat) (gt : GameType) (actors : List Actor)
    (susp : List (Nat × Nat)) (k : Nat) :
    Option (List (Nat × Nat) × Nat × List Actor × List (Nat × Nat) × Nat) :=
  match phaseOneCore rng gt actors susp k with
  | none => none
  | some (votes, mostVoted, susp1, k1, _) =>
    let pick : Option Nat :=
      if mostVoted.length > 0 then randomChoice mostVoted (rng k1)
      else (randomChoice (getActiveActors actors) (rng k1)).map (fun a => a.id)
    match pick with
    | none => none
    | some rid => some (votes, rid, markRemoved actors rid, susp1, k1 + 1)

/-- `VotingGame.resolvePhaseTwo`: remove a uniformly random active loyalist,
or return the `-1` sentinel when none is active. -/
def resolvePhaseTwo (rng : Nat → Nat) (actors : List Actor) (k : Nat) :
    Option (Int × List Actor × Nat) :=
  let activeLoyalists := getActiveLoyalists actors
  if activeLoyalists.length = 0 then some (-1, actors, k)
  else
    match randomChoice activeLoyalists (rng k) with
    | some a => some (Int.ofNat a.id, markRemoved actors a.id, k + 1)
    | none => none

/-- `VotingGame.isGameOver` -/
def isGameOver (actors : List Actor) : Bool :=
  decide ((getActiveTraitors actors).length = 0) ||
    decide ((getActiveLoyalists actors).length = 0)

/-- `VotingGame.getOutcome` -/
def getOutcome (ec : EndCondition) (actors : List Actor) : Outcome :=
  match ec with
  | EndCondition.first_traitor_removed =>
    if (getActiveLoyalists actors).length = 0 then Outcome.no_loyalists
    else Outcome.traitor_removed
  | EndCondition.all_one_type =>
    if (getActiveTraitors actors).length = 0 then Outcome.all_loyalists
    else Outcome.all_traitors

structure RoundResult where
  roundNumber : Nat
  phaseOneVotes : List (Nat × Nat)
  phaseOneRemoved : Nat
  phaseTwoRemoved : Int
  remainingActors : List Actor
deriving DecidableEq, Repr

structure GameResult where
  rounds : List RoundResult
  totalRounds : Nat
  outcome : Outcome
  endCondition : EndCondition
deriving DecidableEq, Repr

/-- The `while` loop of `VotingGame.run`, with fuel bounding the number of
iterations.  State: roster, suspect map, rng counter, current round number,
round history. -/
def runAux (rng : Nat → Nat) (gt : GameType) (ec : EndCondition) :
    Nat → List Actor → List (Nat × Nat) → Nat → Nat → List RoundResult →
    Option GameResult
  | 0, _, _, _, _, _ => none
  | fuel + 1, actors, susp, k, round, history =>
    if isGameOver actors then
      some { rounds := history, totalRounds := round,
             outcome := getOutcome ec actors, endCondition := ec }
    else
      match resolvePhaseOne rng gt actors susp k with
      | none => none
      | some (votes, rid, actors1, susp1, k1) =>
        let round1 := round + 1
        let removedActor := actors1.find? (fun a => decide (a.id = rid))
        let traitorJustRemoved : Bool :=
          match removedActor with
          | some a => decide (a.type = ActorType.traitor)
          | none => false
        let record1 : RoundResult :=
          { roundNumber := round1, phaseOneVotes := votes, phaseOneRemoved := rid,
            phaseTwoRemoved := -1, remainingActors := getActiveActors actors1 }
        if decide (ec = EndCondition.first_traitor_removed) && traitorJustRemoved then
          some { rounds := history ++ [record1], totalRounds := round1,
                 outcome := getOutcome ec actors1, endCondition := ec }
        else if isGameOver actors1 then
          some { rounds := history ++ [record1], totalRounds := round1,
                 outcome := getOutcome ec actors1, endCondition := ec }
        else
          match resolvePhaseTwo rng actors1 k1 with
          | none => none
          | some (p2, actors2, k2) =>
            let record2 : RoundResult :=
              { roundNumber := round1, phaseOneVotes := votes, phaseOneRemoved := rid,
                phaseTwoRemoved := p2, remainingActors := getActiveActors actors2 }
            if isGameOver actors2 then
              some { rounds := history ++ [record2], totalRounds := round1,
                     outcome := getOutcome ec actors2, endCondition := ec }
            else
              runAux rng gt ec fuel actors2 susp1 k2 round1 (history ++ [record2])

/-- `VotingGame` constructor: loyalists get ids `[0, L)`, traitors
`[L, L+T)`, all active. -/
def initActors (loyalistCount traitorCount : Nat) : List Actor :=
  (List.range loyalistCount).map (fun i =>
    { id := i, type := ActorType.loyalist, status := ActorStatus.active }) ++
  (List.range traitorCount).map (fun i =>
    { id := loyalistCount + i, type := ActorType.traitor, status := ActorStatus.active })

/-- `new VotingGame(L, T, ec, gt).run()`.  The fuel `L + T + 1` dominates
the loop's iteration count (at least one actor is removed per round). -/
def runGame (loyalistCount traitorCount : Nat) (ec : EndCondition) (gt : GameType)
    (rng : Nat → Nat) : Option GameResult :=
  runAux rng gt ec (loyalistCount + traitorCount + 1)
    (initActors loyalistCount traitorCount) [] 0 0 []

/-!
`InfluenceVotingGame`.  The per-pair influence scores are fixed at
construction time; we abstract the score table as a function
`infl : Nat → Nat → Nat` (`getInfluence(from, to)`, with the `|| 0`
default folded in).
-/

/-- The inner loop of `InfluenceVotingGame.conductVote`: fold over the valid
targets keeping the lowest influence seen so far (`none` models the initial
`Infinity`) and the id holding it; `targetId` starts at
`validTargets[0].id`. -/
def pickLowestInfluence (infl : Nat → Nat → Nat) (aid : Nat) : List Actor → Nat
  | [] => 0
  | t0 :: rest =>
    ((t0 :: rest).foldl
      (fun (acc : Option Nat × Nat) t =>
        match acc.1 with
        | none => (some (infl aid t.id), t.id)
        | some low =>
          if infl aid t.id < low then (some (infl aid t.id), t.id) else acc)
      ((none : Option Nat), t0.id)).2

/-- `InfluenceVotingGame.conductVote(eligibleTargets?)`: fully deterministic;
each active actor votes for the valid target over which it holds the lowest
influence. -/
def influenceConductVote (infl : Nat → Nat → Nat) (actors : List Actor)
    (eligible : Option (List Actor)) : List (Nat × Nat) :=
  (getActiveActors actors).foldl
    (fun votes actor =>
      let validTargets :=
        match eligible with
        | some ts => ts
        | none =>
          match actor.type with
          | ActorType.loyalist =>
            (getActiveActors actors).filter (fun a => decide (¬ a.id = actor.id))
          | ActorType.traitor => getActiveLoyalists actors
      if validTargets.length > 0 then
        let targetId := pickLowestInfluence infl actor.id validTargets
        mapSet votes targetId (mapGet votes targetId + 1)
      else votes)
    []

/-- Modelled from the spec (§4.2, §4.3 step 3), for comparison with
`influenceConductVote`: "During the tie-break re-vote, this strategy is
replaced by uniform-random selection over the restricted eligible set
exactly as the Random strategy does" — every voter draws a uniformly random
target from the restricted eligible set. -/
def specUniformTieBreakVote (rng : Nat → Nat) (actors : List Actor)
    (ts : List Actor) (k : Nat) : Option (List (Nat × Nat)) :=
  ((getActiveActors actors).foldl
    (fun acc _ => acc.bind (fun st =>
      match randomChoice ts (rng st.2) with
      | some t => some (mapSet st.1 t.id (mapGet st.1 t.id + 1), st.2 + 1)
      | none => none))
    (some (([] : List (Nat × Nat)), k))).map (fun st => st.1)

/-!
`calculateStatistics`: the `mode` field (the only field the claims touch;
the remaining fields are floating-point aggregates of the same list).
-/

/-- The `frequency` map construction loop of `calculateStatistics`. -/
def buildFrequency (rounds : List Nat) : List (Nat × Nat) :=
  rounds.foldl (fun freq r => mapSet freq r (mapGet freq r + 1)) []

/-- The mode-selection loop of `calculateStatistics`: start from
`mode = rounds[0]`, `maxFreq = 0`, keep entries that strictly beat the
running maximum. -/
def calcModeLoop (freq : List (Nat × Nat)) (start : Nat) : Nat :=
  (freq.foldl (fun (acc : Nat × Nat) e => if e.2 > acc.2 then (e.1, e.2) else acc)
    (start, 0)).1

/-- The `mode` field of `calculateStatistics(results)` as a function of the
`roundsToCompletion` values (`0` for an empty batch, per the early return). -/
def calculateStatisticsMode (rounds : List Nat) : Nat :=
  match rounds with
  | [] => 0
  | r0 :: _ => calcModeLoop (buildFrequency rounds) r0

/-- First index of `v` in `rs` (`rs.length` when absent). -/
def firstIdx (rs : List Nat) (v : Nat) : Nat :=
  match rs with
  | [] => 0
  | x :: xs => if x = v then 0 else firstIdx xs v + 1

/-- Sum of the counts recorded in a vote tally. -/
def sumSnd (m : List (Nat × Nat)) : Nat :=
  (m.map (fun p => p.2)).sum

/-- Keys of an association list, in insertion order. -/
def keysOf (m : List (Nat × Nat)) : List Nat :=
  m.map (fun p => p.1)

/-!
Concrete scenario used to analyse the tie-break behaviour: three loyalists
(ids 0,1,2) and one traitor (id 3), `random` game type.  The rng stream
below makes the initial vote tie actors 1 and 0 at two votes each, keeps
the restricted re-vote tied between 0 and 1 through all ten attempts
(reads 4..43), and then supplies the draw 2 for the final selection
(read 44).
-/

def rngTie : Nat → Nat := fun n =>
  if n = 44 then 2 else if n = 2 then 1 else if n ≤ 3 then 0 else (n - 4) % 2

def actorL0 : Actor := ⟨0, ActorType.loyalist, ActorStatus.active⟩

def actorL1 : Actor := ⟨1, ActorType.loyalist, ActorStatus.active⟩

def actorT2 : Actor := ⟨2, ActorType.traitor, ActorStatus.active⟩

/-- Influence table for the influence-game tie-break scenario, realizable
by `InfluenceVotingGame`: `getInfluence` returns 0 on every self-pair (the
constructor never writes an `"a-a"` key, so the `|| 0` default applies) and
the constructor stores scores in `[1, 100]` for distinct pairs — here 1
towards actor 0 and 5 towards everyone else. -/
def inflReal : Nat → Nat → Nat :=
  fun a b => if a = b then 0 else if b = 0 then 1 else 5

/-- C1, counterexample.  After the initial vote of the 3-loyalist/1-traitor
game ties actors 1 and 0, the tie-break re-vote restricted to the tied pair
collects FOUR votes — one from every active actor, including the two
non-tied actors 2 and 3 — whereas a re-vote in which only the two tied
actors vote could collect at most two.  So non-tied active actors do cast
votes in a tie-break re-vote. -/
theorem claim_C1_cex :
    (conductVote rngTie GameType.random (initActors 3 1) none [] 0).map
        (fun x => findMostVoted x.1) = some [1, 0]
  ∧ (conductVote rngTie GameType.random (initActors 3 1)
        (some [actorL0, actorL1]) [] 4).map
        (fun x => sumSnd x.1) = some 4
  ∧ ¬ (4 ≤ 2) := by
  decide

/-- C2, counterexample.  In the same scenario the most-voted set is still
`[0, 1]` after the full 10 tie-break attempts (attempt counter = 10), yet
the code removes actor 0 — drawn from the tied set — while a uniform draw
among ALL currently active actors with the very same random value (read 44,
value 2) would have selected actor 2.  The all-active fallback is reserved
for an empty tally; a persistent tie keeps the selection inside the tied
set. -/
theorem claim_C2_cex :
    (phaseOneCore rngTie GameType.random (initActors 3 1) [] 0).map
        (fun x => (x.2.1, x.2.2.2.2)) = some ([0, 1], 10)
  ∧ (resolvePhaseOne rngTie GameType.random (initActors 3 1) [] 0).map
        (fun x => x.2.1) = some 0
  ∧ (randomChoice (getActiveActors (initActors 3 1)) (rngTie 44)).map
        (fun a => a.id) = some 2
  ∧ (0 : Nat) ≠ 2 := by
  decide

/-- C7, counterexample.  In the influence game, a tie-break re-vote over the
restricted set `[actor 0, actor 1]` under the realizable table `inflReal`
(zero self-influence, stored scores 1 towards actor 0 and 5 otherwise) is
decided by the lowest-influence rule: voter 0 picks itself (self-influence
0 beats the stored 5 towards actor 1), voter 1 picks itself (0 beats the
stored 1 towards actor 0), and the traitor voter 2 picks actor 0 (1 beats
5), giving the deterministic tally `[(0, 2), (1, 1)]` — whereas the
spec-modelled uniform-random re-vote (`specUniformTieBreakVote`) with the
random stream constantly `1` yields all three votes on actor 1.  The
lowest-influence rule, not uniform-random selection, decides tie-break
votes. -/
theorem claim_C7_cex :
    (inflReal 0 0 = 0 ∧ inflReal 1 1 = 0 ∧ inflReal 2 2 = 0)
  ∧ influenceConductVote inflReal [actorL0, actorL1, actorT2] (some [actorL0, actorL1])
      = [(0, 2), (1, 1)]
  ∧ specUniformTieBreakVote (fun _ => 1) [actorL0, actorL1, actorT2] [actorL0, actorL1] 0
      = some [(1, 3)]
  ∧ ([(0, 2), (1, 1)] : List (Nat × Nat)) ≠ [(1, 3)] := by
  decide

lemma getActiveLoyalists_initActors_zero (T : Nat) :
    getActiveLoyalists (initActors 0 T) = [] := by
  apply List.filter_eq_nil_iff.mpr
  intro a ha
  simp only [initActors, List.range_zero, List.map_nil, List.nil_append,
    List.mem_map, List.mem_range] at ha
  obtain ⟨i, _, rfl⟩ := ha
  simp

lemma getActiveTraitors_initActors_zero (L : Nat) :
    getActiveTraitors (initActors L 0) = [] := by
  apply List.filter_eq_nil_iff.mpr
  intro a ha
  simp only [initActors, List.range_zero, List.map_nil, List.append_nil,
    List.mem_map, List.mem_range] at ha
  obtain ⟨i, _, rfl⟩ := ha
  simp

lemma runAux_gameOver (rng : Nat → Nat) (gt : GameType) (ec : EndCondition)
    (fuel : Nat) (actors : List Actor) (susp : List (Nat × Nat)) (k round : Nat)
    (history : List RoundResult) (h : isGameOver actors = true) :
    runAux rng gt ec (fuel + 1) actors susp k round history =
      some { rounds := history, totalRounds := round,
             outcome := getOutcome ec actors, endCondition := ec } := by
  rw [runAux]
  simp [h]

/-- C10.  Construction performs no validation: with an empty starting
faction (`L = 0` or `T = 0`) the run raises no error, the loop is skipped
(`isGameOver` holds at entry), and the result has `totalRounds = 0`, an
empty round list, and an outcome computed from the degenerate initial
roster. -/
theorem claim_C10 (L T : Nat) (ec : EndCondition) (gt : GameType) (rng : Nat → Nat)
    (h : L = 0 ∨ T = 0) :
    runGame L T ec gt rng =
      some { rounds := [], totalRounds := 0,
             outcome := getOutcome ec (initActors L T), endCondition := ec } := by
  have hGO : isGameOver (initActors L T) = true := by
    unfold isGameOver
    rcases h with h0 | h0
    · subst h0
      rw [getActiveLoyalists_initActors_zero]
      simp
    · subst h0
      rw [getActiveTraitors_initActors_zero]
      simp
  unfold runGame
  exact runAux_gameOver rng gt ec (L + T) (initActors L T) [] 0 0 [] hGO

/-- C10, witness: the degenerate configuration `L = 0, T = 3`. -/
theorem claim_C10_w :
    ((0 : Nat) = 0 ∨ (3 : Nat) = 0) ∧
    runGame 0 3 EndCondition.all_one_type GameType.random (fun _ => 0) =
      some { rounds := [], totalRounds := 0, outcome := Outcome.all_traitors,
             endCondition := EndCondition.all_one_type } := by
  refine ⟨Or.inl rfl, ?_⟩
  have h := claim_C10 0 3 EndCondition.all_one_type GameType.random (fun _ => 0)
    (Or.inl rfl)
  rw [h]
  decide

/-! Basic lemmas about the random draw and the association-list map. -/

lemma randomChoice_some {α : Type} (xs : List α) (r : Nat) (h : xs ≠ []) :
    ∃ a, randomChoice xs r = some a ∧ a ∈ xs := by
  have hlen : 0 < xs.length := List.length_pos.mpr h
  have hmod : r % xs.length < xs.length := Nat.mod_lt _ hlen
  have hsome : xs.get? (r % xs.length) = some (xs.get ⟨r % xs.length, hmod⟩) :=
    List.get?_eq_some.mpr ⟨hmod, rfl⟩
  exact ⟨_, hsome, List.get?_mem hsome⟩

lemma mem_keysOf_mapSet (m : List (Nat × Nat)) (key v x : Nat)
    (hx : x ∈ keysOf (mapSet m key v)) : x ∈ keysOf m ∨ x = key := by
  unfold mapSet at hx
  split at hx
  · unfold keysOf at hx ⊢
    simp only [List.map_map, List.mem_map] at hx
    obtain ⟨p, hp, hpx⟩ := hx
    by_cases hc : p.1 = key
    · right
      rw [← hpx]
      simp [hc]
    · left
      simp only [List.mem_map]
      exact ⟨p, hp, by rw [← hpx]; simp [hc]⟩
  · unfold keysOf at hx ⊢
    simp only [List.map_append, List.mem_append, List.map_cons, List.map_nil,
      List.mem_cons, List.not_mem_nil, or_false] at hx
    rcases hx with hx | hx
    · exact Or.inl hx
    · exact Or.inr hx

lemma keysOf_nodup_mapSet (m : List (Nat × Nat)) (key v : Nat)
    (h : (keysOf m).Nodup) : (keysOf (mapSet m key v)).Nodup := by
  unfold mapSet
  split
  · have : keysOf (m.map (fun p => if p.1 = key then (key, v) else p)) = keysOf m := by
      unfold keysOf
      rw [List.map_map]
      apply List.map_congr_left
      intro p _
      by_cases hc : p.1 = key <;> simp [hc]
    rw [this]
    exact h
  · unfold keysOf at h ⊢
    rw [List.map_append]
    next hany =>
    have hnot : key ∉ m.map (fun p => p.1) := by
      intro hmem
      simp only [List.mem_map] at hmem
      obtain ⟨p, hp, hpk⟩ := hmem
      have : m.any (fun p => decide (p.1 = key)) = true :=
        List.any_eq_true.mpr ⟨p, hp, by simp [hpk]⟩
      simp [this] at hany
    simp only [List.map_cons, List.map_nil]
    exact List.Nodup.append h (List.nodup_singleton key)
      (by
        intro a ha hb
        simp only [List.mem_singleton] at hb
        subst hb
        exact hnot ha)

lemma find?_eq_none_of_any_eq_false (m : List (Nat × Nat)) (key : Nat)
    (h : m.any (fun p => decide (p.1 = key)) = false) :
    m.find? (fun p => decide (p.1 = key)) = none := by
  apply List.find?_eq_none.mpr
  intro p hp
  intro hdec
  have : m.any (fun p => decide (p.1 = key)) = true :=
    List.any_eq_true.mpr ⟨p, hp, hdec⟩
  rw [this] at h
  exact absurd h (by simp)

lemma sumSnd_append (m₁ m₂ : List (Nat × Nat)) :
    sumSnd (m₁ ++ m₂) = sumSnd m₁ + sumSnd m₂ := by
  unfold sumSnd
  rw [List.map_append, List.sum_append]

lemma sumSnd_mapSet_bump (key : Nat) :
    ∀ m : List (Nat × Nat), (keysOf m).Nodup →
      sumSnd (mapSet m key (mapGet m key + 1)) = sumSnd m + 1 := by
  intro m
  induction m with
  | nil =>
    intro _
    simp [mapSet, mapGet, sumSnd]
  | cons p rest ih =>
    intro hnd
    have hnd' : (p.1 :: keysOf rest).Nodup := by
      unfold keysOf at hnd ⊢
      rwa [List.map_cons] at hnd
    have hndrest : (keysOf rest).Nodup := (List.nodup_cons.mp hnd').2
    by_cases hc : p.1 = key
    · have hkey_not : key ∉ keysOf rest := by
        rw [← hc]
        exact (List.nodup_cons.mp hnd').1
      have hget : mapGet (p :: rest) key = p.2 := by
        unfold mapGet
        simp [List.find?_cons, hc]
      have hany : (p :: rest).any (fun q => decide (q.1 = key)) = true := by
        simp [List.any_cons, hc]
      unfold mapSet
      rw [hany]
      simp only [if_true]
      have hrest_map :
          rest.map (fun q => if q.1 = key then (key, mapGet (p :: rest) key + 1) else q)
            = rest := by
        have : ∀ q ∈ rest,
            (if q.1 = key then (key, mapGet (p :: rest) key + 1) else q) = q := by
          intro q hq
          have : ¬ q.1 = key := by
            intro hqk
            exact hkey_not (by unfold keysOf; exact List.mem_map.mpr ⟨q, hq, hqk⟩)
          simp [this]
        calc rest.map (fun q => if q.1 = key then (key, mapGet (p :: rest) key + 1) else q)
            = rest.map id := List.map_congr_left (by intro q hq; simp [this q hq])
          _ = rest := List.map_id rest
      rw [List.map_cons, hrest_map]
      simp only [hc, if_true]
      unfold sumSnd
      simp [hget, Nat.add_comm, Nat.add_assoc, Nat.add_left_comm]
    · have hget : mapGet (p :: rest) key = mapGet rest key := by
        unfold mapGet
        simp [List.find?_cons, hc]
      have hany_cons : (p :: rest).any (fun q => decide (q.1 = key))
          = rest.any (fun q => decide (q.1 = key)) := by
        simp [List.any_cons, hc]
      by_cases hrest : rest.any (fun q => decide (q.1 = key)) = true
      · unfold mapSet
        rw [hany_cons, hrest]
        simp only [if_true]
        rw [List.map_cons]
        have hhead : (if p.1 = key then (key, mapGet (p :: rest) key + 1) else p) = p := by
          simp [hc]
        rw [hhead]
        have ihr := ih hndrest
        unfold mapSet at ihr
        rw [hrest] at ihr
        simp only [if_true] at ihr
        rw [hget]
        unfold sumSnd at ihr ⊢
        simp only [List.map_cons, List.sum_cons]
        omega
      · have hrest' : rest.any (fun q => decide (q.1 = key)) = false :=
          Bool.eq_false_iff.mpr hrest
        unfold mapSet
        rw [hany_cons, hrest']
        simp only [Bool.false_eq_true, if_false]
        rw [hget]
        have hget0 : mapGet rest key = 0 := by
          unfold mapGet
          rw [find?_eq_none_of_any_eq_false rest key hrest']
        rw [hget0, sumSnd_append]
        unfold sumSnd
        simp

/-! Lemmas about the voting step and `conductVote`. -/

/-- The ids of the currently active actors. -/
def activeIds (actors : List Actor) : List Nat :=
  (getActiveActors actors).map (fun a => a.id)

lemma mem_active_of_mem_loyalists (actors : List Actor) (a : Actor)
    (h : a ∈ getActiveLoyalists actors) : a ∈ getActiveActors actors := by
  unfold getActiveLoyalists at h
  unfold getActiveActors
  rw [List.mem_filter] at h ⊢
  refine ⟨h.1, ?_⟩
  have h2 := h.2
  simp only [Bool.and_eq_true, decide_eq_true_eq] at h2
  simp [h2.1]

lemma mem_active_of_mem_traitors (actors : List Actor) (a : Actor)
    (h : a ∈ getActiveTraitors actors) : a ∈ getActiveActors actors := by
  unfold getActiveTraitors at h
  unfold getActiveActors
  rw [List.mem_filter] at h ⊢
  refine ⟨h.1, ?_⟩
  have h2 := h.2
  simp only [Bool.and_eq_true, decide_eq_true_eq] at h2
  simp [h2.1]

lemma getSuspect_mem (rng : Nat → Nat) (actors : List Actor) (lid : Nat)
    (susp : List (Nat × Nat)) (k : Nat) (tid : Nat)
    (h : (getSuspectForLoyalist rng actors lid susp k).1 = some tid) :
    tid ∈ activeIds actors := by
  unfold getSuspectForLoyalist at h
  by_cases h0 :
      ((getActiveActors actors).filter (fun a => decide (¬ a.id = lid))).length = 0
  · rw [if_pos h0] at h
    simp at h
  · rw [if_neg h0] at h
    cases hfind : (susp.find? (fun p => decide (p.1 = lid))).map (fun p => p.2) with
    | some cur =>
      rw [hfind] at h
      simp only [] at h
      by_cases hany :
          ((getActiveActors actors).filter (fun a => decide (¬ a.id = lid))).any
            (fun a => decide (a.id = cur)) = true
      · rw [if_pos hany] at h
        simp only [Option.some.injEq] at h
        subst h
        obtain ⟨a, ha, haid⟩ := List.any_eq_true.mp hany
        exact List.mem_map.mpr ⟨a, (List.mem_filter.mp ha).1, by simpa using haid⟩
      · rw [if_neg hany] at h
        cases hrc : randomChoice
            ((getActiveActors actors).filter (fun a => decide (¬ a.id = lid))) (rng k) with
        | some a =>
          rw [hrc] at h
          simp only [Option.some.injEq] at h
          subst h
          have ha : a ∈ (getActiveActors actors).filter (fun a => decide (¬ a.id = lid)) :=
            List.get?_mem hrc
          exact List.mem_map.mpr ⟨a, (List.mem_filter.mp ha).1, rfl⟩
        | none =>
          rw [hrc] at h
          simp at h
    | none =>
      rw [hfind] at h
      simp only [] at h
      cases hrc : randomChoice
          ((getActiveActors actors).filter (fun a => decide (¬ a.id = lid))) (rng k) with
      | some a =>
        rw [hrc] at h
        simp only [Option.some.injEq] at h
        subst h
        have ha : a ∈ (getActiveActors actors).filter (fun a => decide (¬ a.id = lid)) :=
          List.get?_mem hrc
        exact List.mem_map.mpr ⟨a, (List.mem_filter.mp ha).1, rfl⟩
      | none =>
        rw [hrc] at h
        simp at h

lemma voteStep_none_some (rng : Nat → Nat) (gt : GameType) (actors : List Actor)
    (st : List (Nat × Nat) × List (Nat × Nat) × Nat) (actor : Actor) :
    ∃ st', voteStep rng gt actors none st actor = some st' ∧
      ∀ x ∈ keysOf st'.1, x ∈ keysOf st.1 ∨ x ∈ activeIds actors := by
  unfold voteStep
  cases hty : actor.type with
  | loyalist =>
    cases gt with
    | fixate =>
      rcases hgs : getSuspectForLoyalist rng actors actor.id st.2.1 st.2.2 with ⟨o, s1, k1⟩
      cases o with
      | some tid =>
        refine ⟨_, rfl, ?_⟩
        intro x hx
        rcases mem_keysOf_mapSet _ _ _ _ hx with hx | hx
        · exact Or.inl hx
        · refine Or.inr (hx ▸ getSuspect_mem rng actors actor.id st.2.1 st.2.2 tid ?_)
          rw [hgs]
      | none =>
        exact ⟨_, rfl, fun x hx => Or.inl hx⟩
    | random =>
      simp only []
      by_cases hlen :
          ((getActiveActors actors).filter (fun a => decide (¬ a.id = actor.id))).length > 0
      · have hne : (getActiveActors actors).filter (fun a => decide (¬ a.id = actor.id)) ≠ [] := by
          intro hnil
          rw [hnil] at hlen
          simp at hlen
        obtain ⟨t, hrc, htm⟩ := randomChoice_some _ (rng st.2.2) hne
        rw [if_pos hlen, hrc]
        refine ⟨_, rfl, ?_⟩
        intro x hx
        rcases mem_keysOf_mapSet _ _ _ _ hx with hx | hx
        · exact Or.inl hx
        · exact Or.inr (hx ▸
            List.mem_map.mpr ⟨t, (List.mem_filter.mp htm).1, rfl⟩)
      · rw [if_neg hlen]
        exact ⟨_, rfl, fun x hx => Or.inl hx⟩
  | traitor =>
    simp only []
    by_cases hlen : (getActiveLoyalists actors).length > 0
    · have hne : getActiveLoyalists actors ≠ [] := by
        intro hnil
        rw [hnil] at hlen
        simp at hlen
      obtain ⟨t, hrc, htm⟩ := randomChoice_some _ (rng st.2.2) hne
      rw [if_pos hlen, hrc]
      refine ⟨_, rfl, ?_⟩
      intro x hx
      rcases mem_keysOf_mapSet _ _ _ _ hx with hx | hx
      · exact Or.inl hx
      · exact Or.inr (hx ▸
          List.mem_map.mpr ⟨t, mem_active_of_mem_loyalists actors t htm, rfl⟩)
    · rw [if_neg hlen]
      exact ⟨_, rfl, fun x hx => Or.inl hx⟩

lemma voteStep_eligible_some (rng : Nat → Nat) (gt : GameType) (actors : List Actor)
    (ts : List Actor) (st : List (Nat × Nat) × List (Nat × Nat) × Nat) (actor : Actor)
    (h : ts ≠ []) :
    ∃ t, t ∈ ts ∧ voteStep rng gt actors (some ts) st actor =
      some (mapSet st.1 t.id (mapGet st.1 t.id + 1), st.2.1, st.2.2 + 1) := by
  obtain ⟨t, hrc, htm⟩ := randomChoice_some ts (rng st.2.2) h
  refine ⟨t, htm, ?_⟩
  unfold voteStep
  simp only []
  rw [hrc]

lemma voteStep_eligible_gt_irrel (rng : Nat → Nat) (gt gt' : GameType)
    (actors : List Actor) (ts : List Actor)
    (st : List (Nat × Nat) × List (Nat × Nat) × Nat) (actor actor' : Actor) :
    voteStep rng gt actors (some ts) st actor =
      voteStep rng gt' actors (some ts) st actor' := rfl

lemma voteFold_none_some (rng : Nat → Nat) (gt : GameType) (actors : List Actor) :
    ∀ (voters : List Actor) (st : List (Nat × Nat) × List (Nat × Nat) × Nat),
      (∀ x ∈ keysOf st.1, x ∈ activeIds actors) →
      ∃ st', voters.foldl
          (fun acc a => acc.bind (fun s => voteStep rng gt actors none s a)) (some st)
          = some st' ∧
        ∀ x ∈ keysOf st'.1, x ∈ activeIds actors := by
  intro voters
  induction voters with
  | nil =>
    intro st hst
    exact ⟨st, rfl, hst⟩
  | cons a rest ih =>
    intro st hst
    obtain ⟨st1, hstep, hkeys⟩ := voteStep_none_some rng gt actors st a
    obtain ⟨st', hfold, hkeys'⟩ := ih st1
      (fun x hx => (hkeys x hx).elim (fun hk => hst x hk) id)
    refine ⟨st', ?_, hkeys'⟩
    rw [List.foldl_cons]
    have hf : ((some st).bind (fun s => voteStep rng gt actors none s a)) = some st1 := hstep
    rw [hf]
    exact hfold

lemma voteFold_eligible_some (rng : Nat → Nat) (gt : GameType) (actors : List Actor)
    (ts : List Actor) (hts : ts ≠ []) :
    ∀ (voters : List Actor) (votes susp : List (Nat × Nat)) (k : Nat),
      (keysOf votes).Nodup →
      ∃ v k', voters.foldl
          (fun acc a => acc.bind (fun s => voteStep rng gt actors (some ts) s a))
          (some (votes, susp, k)) = some (v, susp, k') ∧
        sumSnd v = sumSnd votes + voters.length ∧
        (keysOf v).Nodup ∧
        (∀ x ∈ keysOf v, x ∈ keysOf votes ∨ x ∈ ts.map (fun a => a.id)) := by
  intro voters
  induction voters with
  | nil =>
    intro votes susp k hnd
    exact ⟨votes, k, rfl, by simp, hnd, fun x hx => Or.inl hx⟩
  | cons a rest ih =>
    intro votes susp k hnd
    obtain ⟨t, htm, hstep⟩ :=
      voteStep_eligible_some rng gt actors ts (votes, susp, k) a hts
    obtain ⟨v, k', hfold, hsum, hnd', hkeys⟩ :=
      ih (mapSet votes t.id (mapGet votes t.id + 1)) susp (k + 1)
        (keysOf_nodup_mapSet votes t.id _ hnd)
    refine ⟨v, k', ?_, ?_, hnd', ?_⟩
    · rw [List.foldl_cons]
      have hf : ((some (votes, susp, k)).bind
          (fun s => voteStep rng gt actors (some ts) s a))
          = some (mapSet votes t.id (mapGet votes t.id + 1), susp, k + 1) := hstep
      rw [hf]
      exact hfold
    · rw [hsum, sumSnd_mapSet_bump t.id votes hnd]
      simp [Nat.add_assoc, Nat.add_comm, Nat.add_left_comm]
    · intro x hx
      rcases hkeys x hx with hx' | hx'
      · rcases mem_keysOf_mapSet _ _ _ _ hx' with hx'' | hx''
        · exact Or.inl hx''
        · exact Or.inr (hx'' ▸ List.mem_map.mpr ⟨t, htm, rfl⟩)
      · exact Or.inr hx'

lemma conductVote_none_some (rng : Nat → Nat) (gt : GameType) (actors : List Actor)
    (susp : List (Nat × Nat)) (k : Nat) :
    ∃ v s' k', conductVote rng gt actors none susp k = some (v, s', k') ∧
      ∀ x ∈ keysOf v, x ∈ activeIds actors := by
  obtain ⟨st', hfold, hkeys⟩ :=
    voteFold_none_some rng gt actors (getActiveActors actors) ([], susp, k)
      (by intro x hx; simp [keysOf] at hx)
  rcases st' with ⟨v, s', k'⟩
  exact ⟨v, s', k', hfold, hkeys⟩

lemma conductVote_eligible_some (rng : Nat → Nat) (gt : GameType) (actors : List Actor)
    (ts : List Actor) (susp : List (Nat × Nat)) (k : Nat) (hts : ts ≠ []) :
    ∃ v k', conductVote rng gt actors (some ts) susp k = some (v, susp, k') ∧
      sumSnd v = (getActiveActors actors).length ∧
      (keysOf v).Nodup ∧
      ∀ x ∈ keysOf v, x ∈ ts.map (fun a => a.id) := by
  obtain ⟨v, k', hfold, hsum, hnd, hkeys⟩ :=
    voteFold_eligible_some rng gt actors ts hts (getActiveActors actors) [] susp k
      (by simp [keysOf])
  refine ⟨v, k', hfold, by simpa [sumSnd] using hsum, hnd, ?_⟩
  intro x hx
  rcases hkeys x hx with hx' | hx'
  · simp [keysOf] at hx'
  · exact hx'

/-- C1 (amended).  In a tie-break re-vote the restriction applies to the
eligible TARGETS only: every currently active actor (tied or not) casts a
vote, each drawn uniformly at random from the tied set, regardless of its
faction or the configured strategy.  Formally: the restricted vote always
succeeds, its tally carries exactly one vote per active actor (so non-tied
active actors vote too), every vote lands on a member of the restricted
set, the suspect memory is untouched, and the outcome is independent of the
configured game type. -/
theorem claim_C1 (rng : Nat → Nat) (gt gt' : GameType) (actors ts : List Actor)
    (susp : List (Nat × Nat)) (k : Nat) (hts : ts ≠ []) :
    ∃ v k', conductVote rng gt actors (some ts) susp k = some (v, susp, k') ∧
      sumSnd v = (getActiveActors actors).length ∧
      (∀ x ∈ keysOf v, x ∈ ts.map (fun a => a.id)) ∧
      conductVote rng gt' actors (some ts) susp k =
        conductVote rng gt actors (some ts) susp k := by
  obtain ⟨v, k', hfold, hsum, _, hkeys⟩ :=
    conductVote_eligible_some rng gt actors ts susp k hts
  exact ⟨v, k', hfold, hsum, hkeys, rfl⟩

/-- C1, witness: the tie scenario of `claim_C1_cex` (four active actors,
tied pair `{0, 1}`). -/
theorem claim_C1_w :
    (([actorL0, actorL1] : List Actor) ≠ []) ∧
    ∃ v k', conductVote rngTie GameType.random (initActors 3 1)
        (some [actorL0, actorL1]) [] 4 = some (v, [], k') ∧
      sumSnd v = (getActiveActors (initActors 3 1)).length ∧
      (∀ x ∈ keysOf v, x ∈ [actorL0, actorL1].map (fun a => a.id)) ∧
      conductVote rngTie GameType.fixate (initActors 3 1)
          (some [actorL0, actorL1]) [] 4 =
        conductVote rngTie GameType.random (initActors 3 1)
          (some [actorL0, actorL1]) [] 4 := by
  exact ⟨by decide,
    claim_C1 rngTie GameType.random GameType.fixate (initActors 3 1)
      [actorL0, actorL1] [] 4 (by decide)⟩

/-! Lemmas about `findMostVoted`, the tie-break loop and phase one. -/

lemma findMostVoted_fold_sub :
    ∀ (entries : List (Nat × Nat)) (acc : Nat × List Nat),
      ∀ x ∈ (entries.foldl
        (fun (acc : Nat × List Nat) e =>
          if e.2 > acc.1 then (e.2, [e.1])
          else if e.2 = acc.1 then (acc.1, acc.2 ++ [e.1])
          else acc) acc).2,
        x ∈ acc.2 ∨ x ∈ keysOf entries := by
  intro entries
  induction entries with
  | nil =>
    intro acc x hx
    exact Or.inl hx
  | cons e rest ih =>
    intro acc x hx
    rw [List.foldl_cons] at hx
    rcases ih _ x hx with hx' | hx'
    · by_cases h1 : e.2 > acc.1
      · rw [if_pos h1] at hx'
        simp only [List.mem_singleton] at hx'
        exact Or.inr (by simp [keysOf, hx'])
      · rw [if_neg h1] at hx'
        by_cases h2 : e.2 = acc.1
        · rw [if_pos h2] at hx'
          simp only [List.mem_append, List.mem_singleton] at hx'
          rcases hx' with hx'' | hx''
          · exact Or.inl hx''
          · exact Or.inr (by simp [keysOf, hx''])
        · rw [if_neg h2] at hx'
          exact Or.inl hx'
    · exact Or.inr (by simp [keysOf]; exact Or.inr (by simpa [keysOf] using hx'))

lemma findMostVoted_sub (votes : List (Nat × Nat)) :
    ∀ x ∈ findMostVoted votes, x ∈ keysOf votes := by
  intro x hx
  unfold findMostVoted at hx
  rcases findMostVoted_fold_sub votes (0, []) x hx with hx' | hx'
  · simp at hx'
  · exact hx'

lemma tied_filter_sub (actors : List Actor) (mv : List Nat) :
    ∀ a ∈ actors.filter (fun a =>
      decide (a.id ∈ mv) && decide (a.status = ActorStatus.active)),
      a ∈ getActiveActors actors ∧ a.id ∈ mv := by
  intro a ha
  rw [List.mem_filter] at ha
  have h2 := ha.2
  simp only [Bool.and_eq_true, decide_eq_true_eq] at h2
  constructor
  · unfold getActiveActors
    rw [List.mem_filter]
    exact ⟨ha.1, by simp [h2.2]⟩
  · exact h2.1

lemma tied_filter_ne_nil (actors : List Actor) (mv : List Nat)
    (hmv : mv ≠ []) (hsub : ∀ x ∈ mv, x ∈ activeIds actors) :
    actors.filter (fun a =>
      decide (a.id ∈ mv) && decide (a.status = ActorStatus.active)) ≠ [] := by
  obtain ⟨x0, hx0⟩ := List.exists_mem_of_ne_nil mv hmv
  have hx0' := hsub x0 hx0
  unfold activeIds at hx0'
  obtain ⟨a, ha, haid⟩ := List.mem_map.mp hx0'
  have haa : a ∈ actors := (List.mem_filter.mp ha).1
  have hact : decide (a.status = ActorStatus.active) = true := (List.mem_filter.mp ha).2
  apply List.ne_nil_of_mem (a := a)
  rw [List.mem_filter]
  exact ⟨haa, by simp only [Bool.and_eq_true]; exact ⟨by simp [haid ▸ hx0], hact⟩⟩

lemma tieBreakLoop_some (rng : Nat → Nat) (gt : GameType) (actors : List Actor) :
    ∀ (fuel : Nat) (votes : List (Nat × Nat)) (mv : List Nat)
      (susp : List (Nat × Nat)) (k att : Nat),
      (∀ x ∈ mv, x ∈ activeIds actors) →
      ∃ v' mv' s' k' att',
        tieBreakLoop rng gt actors fuel votes mv susp k att
          = some (v', mv', s', k', att') ∧
        (∀ x ∈ mv', x ∈ activeIds actors) ∧ att' ≤ att + fuel := by
  intro fuel
  induction fuel with
  | zero =>
    intro votes mv susp k att hsub
    exact ⟨votes, mv, susp, k, att, rfl, hsub, Nat.le_refl _⟩
  | succ fuel ih =>
    intro votes mv susp k att hsub
    rw [tieBreakLoop]
    by_cases hlen : mv.length > 1
    · rw [if_pos hlen]
      have hmvne : mv ≠ [] := by
        intro hnil
        rw [hnil] at hlen
        simp at hlen
      have htne := tied_filter_ne_nil actors mv hmvne hsub
      obtain ⟨v, k1, hcv, _, _, hkeys⟩ :=
        conductVote_eligible_some rng gt actors _ susp k htne
      simp only []
      rw [hcv]
      have hsub' : ∀ x ∈ findMostVoted v, x ∈ activeIds actors := by
        intro x hx
        have hxk := findMostVoted_sub v x hx
        have := hkeys x hxk
        obtain ⟨a, ha, haid⟩ := List.mem_map.mp this
        have := (tied_filter_sub actors mv a ha).1
        exact List.mem_map.mpr ⟨a, this, haid⟩
      obtain ⟨v', mv', s', k', att', hloop, hsub'', hatt⟩ :=
        ih v (findMostVoted v) susp k1 (att + 1) hsub'
      exact ⟨v', mv', s', k', att', hloop, hsub'', by omega⟩
    · rw [if_neg hlen]
      exact ⟨votes, mv, susp, k, att, rfl, hsub, by omega⟩

lemma phaseOneCore_some (rng : Nat → Nat) (gt : GameType) (actors : List Actor)
    (susp : List (Nat × Nat)) (k : Nat) :
    ∃ v mv s' k' att, phaseOneCore rng gt actors susp k = some (v, mv, s', k', att) ∧
      (∀ x ∈ mv, x ∈ activeIds actors) ∧ att ≤ 10 := by
  obtain ⟨v0, s0, k0, hcv, hkeys⟩ := conductVote_none_some rng gt actors susp k
  have hsub : ∀ x ∈ findMostVoted v0, x ∈ activeIds actors :=
    fun x hx => hkeys x (findMostVoted_sub v0 x hx)
  obtain ⟨v', mv', s', k', att', hloop, hsub', hatt⟩ :=
    tieBreakLoop_some rng gt actors 10 v0 (findMostVoted v0) s0 k0 0 hsub
  refine ⟨v', mv', s', k', att', ?_, hsub', by omega⟩
  unfold phaseOneCore
  rw [hcv]
  exact hloop

lemma resolvePhaseOne_some (rng : Nat → Nat) (gt : GameType) (actors : List Actor)
    (susp : List (Nat × Nat)) (k : Nat) (hA : getActiveActors actors ≠ []) :
    ∃ v rid s' k', resolvePhaseOne rng gt actors susp k
        = some (v, rid, markRemoved actors rid, s', k') ∧
      rid ∈ activeIds actors := by
  obtain ⟨v, mv, s1, k1, att, hcore, hsub, _⟩ :=
    phaseOneCore_some rng gt actors susp k
  unfold resolvePhaseOne
  rw [hcore]
  simp only []
  by_cases hmv : mv.length > 0
  · rw [if_pos hmv]
    have hmvne : mv ≠ [] := by
      intro hnil
      rw [hnil] at hmv
      simp at hmv
    obtain ⟨rid, hrc, hmem⟩ := randomChoice_some mv (rng k1) hmvne
    rw [hrc]
    exact ⟨v, rid, s1, k1 + 1, rfl, hsub rid hmem⟩
  · rw [if_neg hmv]
    obtain ⟨a, hrc, hmem⟩ := randomChoice_some (getActiveActors actors) (rng k1) hA
    rw [hrc]
    exact ⟨v, a.id, s1, k1 + 1, rfl, List.mem_map.mpr ⟨a, hmem, rfl⟩⟩

/-- C2 (amended).  The tie-break loop performs at most 10 restricted
re-votes.  The uniform fallback over ALL currently active actors fires only
when the final tally is EMPTY (`mostVoted = []`); whenever the most-voted
set is non-empty — in particular when it still holds more than one actor
after the 10 permitted tie-break attempts — the removed actor is drawn
uniformly at random from that most-voted set, not from all active
actors. -/
theorem claim_C2 (rng : Nat → Nat) (gt : GameType) (actors : List Actor)
    (susp : List (Nat × Nat)) (k : Nat) (hA : getActiveActors actors ≠ []) :
    ∃ votes mv susp1 k1 att,
      phaseOneCore rng gt actors susp k = some (votes, mv, susp1, k1, att) ∧
      att ≤ 10 ∧
      (mv = [] → ∃ a, randomChoice (getActiveActors actors) (rng k1) = some a ∧
        resolvePhaseOne rng gt actors susp k =
          some (votes, a.id, markRemoved actors a.id, susp1, k1 + 1)) ∧
      (mv ≠ [] → ∃ rid, randomChoice mv (rng k1) = some rid ∧ rid ∈ mv ∧
        resolvePhaseOne rng gt actors susp k =
          some (votes, rid, markRemoved actors rid, susp1, k1 + 1)) := by
  obtain ⟨votes, mv, susp1, k1, att, hcore, _, hatt⟩ :=
    phaseOneCore_some rng gt actors susp k
  refine ⟨votes, mv, susp1, k1, att, hcore, hatt, ?_, ?_⟩
  · intro hmv
    obtain ⟨a, hrc, _⟩ := randomChoice_some (getActiveActors actors) (rng k1) hA
    refine ⟨a, hrc, ?_⟩
    unfold resolvePhaseOne
    rw [hcore]
    simp only []
    subst hmv
    simp only [List.length_nil, gt_iff_lt, Nat.lt_irrefl, if_false]
    rw [hrc]
    rfl
  · intro hmv
    obtain ⟨rid, hrc, hmem⟩ := randomChoice_some mv (rng k1) hmv
    refine ⟨rid, hrc, hmem, ?_⟩
    unfold resolvePhaseOne
    rw [hcore]
    simp only []
    have hlen : mv.length > 0 := List.length_pos.mpr hmv
    rw [if_pos hlen, hrc]

/-- C2, witness: the running 3-loyalist/1-traitor scenario. -/
theorem claim_C2_w :
    (getActiveActors (initActors 3 1) ≠ []) ∧
    ∃ votes mv susp1 k1 att,
      phaseOneCore rngTie GameType.random (initActors 3 1) [] 0
        = some (votes, mv, susp1, k1, att) ∧
      att ≤ 10 ∧
      (mv = [] → ∃ a, randomChoice (getActiveActors (initActors 3 1)) (rngTie k1) = some a ∧
        resolvePhaseOne rngTie GameType.random (initActors 3 1) [] 0 =
          some (votes, a.id, markRemoved (initActors 3 1) a.id, susp1, k1 + 1)) ∧
      (mv ≠ [] → ∃ rid, randomChoice mv (rngTie k1) = some rid ∧ rid ∈ mv ∧
        resolvePhaseOne rngTie GameType.random (initActors 3 1) [] 0 =
          some (votes, rid, markRemoved (initActors 3 1) rid, susp1, k1 + 1)) := by
  exact ⟨by decide,
    claim_C2 rngTie GameType.random (initActors 3 1) [] 0 (by decide)⟩

/-! Lemmas about `markRemoved` and roster bookkeeping. -/

lemma mem_active_spec (actors : List Actor) (a : Actor)
    (h : a ∈ getActiveActors actors) : a ∈ actors ∧ a.status = ActorStatus.active := by
  unfold getActiveActors at h
  rw [List.mem_filter] at h
  exact ⟨h.1, by simpa using h.2⟩

lemma mem_loyalists_spec (actors : List Actor) (a : Actor)
    (h : a ∈ getActiveLoyalists actors) :
    a ∈ actors ∧ a.status = ActorStatus.active ∧ a.type = ActorType.loyalist := by
  unfold getActiveLoyalists at h
  rw [List.mem_filter] at h
  have h2 := h.2
  simp only [Bool.and_eq_true, decide_eq_true_eq] at h2
  exact ⟨h.1, h2.1, h2.2⟩

lemma active_partition (actors : List Actor) :
    (getActiveLoyalists actors).length + (getActiveTraitors actors).length
      = (getActiveActors actors).length := by
  induction actors with
  | nil => rfl
  | cons b rest ih =>
    unfold getActiveLoyalists getActiveTraitors getActiveActors at ih ⊢
    cases hs : b.status <;> cases ht : b.type <;>
      simp [List.filter_cons, hs, ht] <;> omega

lemma markRemoved_ids (rid : Nat) :
    ∀ actors : List Actor,
      (markRemoved actors rid).map (fun a => a.id) = actors.map (fun a => a.id) := by
  intro actors
  induction actors with
  | nil => rfl
  | cons b rest ih =>
    unfold markRemoved
    by_cases hb : b.id = rid
    · simp [hb]
    · simp [hb, ih]

lemma markRemoved_pairs (rid : Nat) :
    ∀ (actors : List Actor) (b : Actor), b ∈ markRemoved actors rid →
      ∃ a ∈ actors, b.id = a.id ∧ b.type = a.type := by
  intro actors
  induction actors with
  | nil =>
    intro b hb
    simp [markRemoved] at hb
  | cons c rest ih =>
    intro b hb
    unfold markRemoved at hb
    by_cases hc : c.id = rid
    · rw [if_pos hc] at hb
      rcases List.mem_cons.mp hb with hb | hb
      · exact ⟨c, List.mem_cons_self c rest, by rw [hb], by rw [hb]⟩
      · exact ⟨b, List.mem_cons_of_mem c hb, rfl, rfl⟩
    · rw [if_neg hc] at hb
      rcases List.mem_cons.mp hb with hb | hb
      · exact ⟨c, List.mem_cons_self c rest, by rw [hb], by rw [hb]⟩
      · obtain ⟨a, ha, h1, h2⟩ := ih b hb
        exact ⟨a, List.mem_cons_of_mem c ha, h1, h2⟩

lemma markRemoved_counts (rid : Nat) :
    ∀ (actors : List Actor) (a : Actor),
      (actors.map (fun x => x.id)).Nodup →
      a ∈ actors → a.id = rid → a.status = ActorStatus.active →
      (getActiveActors (markRemoved actors rid)).length + 1
          = (getActiveActors actors).length ∧
      (a.type = ActorType.loyalist →
        getActiveTraitors (markRemoved actors rid) = getActiveTraitors actors ∧
        (getActiveLoyalists (markRemoved actors rid)).length + 1
          = (getActiveLoyalists actors).length) ∧
      (a.type = ActorType.traitor →
        getActiveLoyalists (markRemoved actors rid) = getActiveLoyalists actors ∧
        (getActiveTraitors (markRemoved actors rid)).length + 1
          = (getActiveTraitors actors).length) := by
  intro actors
  induction actors with
  | nil =>
    intro a _ ha
    simp at ha
  | cons b rest ih =>
    intro a hnd ha haid hact
    have hnd' : rid ∉ rest.map (fun x => x.id) ∨ b.id ≠ rid := by
      by_cases hb : b.id = rid
      · left
        rw [List.map_cons] at hnd
        rw [← hb]
        exact (List.nodup_cons.mp hnd).1
      · right
        exact hb
    by_cases hb : b.id = rid
    · have hrid_rest : rid ∉ rest.map (fun x => x.id) := by
        rcases hnd' with h | h
        · exact h
        · exact absurd hb h
      have hab : a = b := by
        rcases List.mem_cons.mp ha with h | h
        · exact h
        · exact absurd (List.mem_map.mpr ⟨a, h, haid⟩) hrid_rest
      subst hab
      unfold markRemoved
      rw [if_pos hb]
      unfold getActiveActors getActiveLoyalists getActiveTraitors
      refine ⟨?_, ?_, ?_⟩
      · simp [List.filter_cons, hact]
      · intro hty
        constructor
        · simp [List.filter_cons, hact, hty]
        · simp [List.filter_cons, hact, hty]
      · intro hty
        constructor
        · simp [List.filter_cons, hact, hty]
        · simp [List.filter_cons, hact, hty]
    · have harest : a ∈ rest := by
        rcases List.mem_cons.mp ha with h | h
        · exact absurd (h ▸ haid) hb
        · exact h
      have hndrest : (rest.map (fun x => x.id)).Nodup := by
        rw [List.map_cons] at hnd
        exact (List.nodup_cons.mp hnd).2
      obtain ⟨h1, h2, h3⟩ := ih a hndrest harest haid hact
      unfold markRemoved
      rw [if_neg hb]
      simp only [getActiveActors, getActiveLoyalists, getActiveTraitors] at h1 h2 h3 ⊢
      refine ⟨?_, ?_, ?_⟩
      · rw [List.filter_cons, List.filter_cons]
        split <;> simpa using h1
      · intro hty
        obtain ⟨h2a, h2b⟩ := h2 hty
        constructor
        · rw [List.filter_cons, List.filter_cons]
          split <;> simp [h2a]
        · rw [List.filter_cons, List.filter_cons]
          split <;> simpa using h2b
      · intro hty
        obtain ⟨h3a, h3b⟩ := h3 hty
        constructor
        · rw [List.filter_cons, List.filter_cons]
          split <;> simp [h3a]
        · rw [List.filter_cons, List.filter_cons]
          split <;> simpa using h3b

lemma markRemoved_find_type (rid : Nat) :
    ∀ (actors : List Actor) (a : Actor),
      (actors.map (fun x => x.id)).Nodup →
      a ∈ actors → a.id = rid →
      ∃ b, (markRemoved actors rid).find? (fun x => decide (x.id = rid)) = some b ∧
        b.type = a.type := by
  intro actors
  induction actors with
  | nil =>
    intro a _ ha
    simp at ha
  | cons c rest ih =>
    intro a hnd ha haid
    by_cases hc : c.id = rid
    · have hrid_rest : rid ∉ rest.map (fun x => x.id) := by
        rw [List.map_cons] at hnd
        rw [← hc]
        exact (List.nodup_cons.mp hnd).1
      have hac : a = c := by
        rcases List.mem_cons.mp ha with h | h
        · exact h
        · exact absurd (List.mem_map.mpr ⟨a, h, haid⟩) hrid_rest
      subst hac
      unfold markRemoved
      rw [if_pos hc]
      refine ⟨{ a with status := ActorStatus.removed }, ?_, rfl⟩
      rw [List.find?_cons]
      simp [hc]
    · have harest : a ∈ rest := by
        rcases List.mem_cons.mp ha with h | h
        · exact absurd (h ▸ haid) hc
        · exact h
      have hndrest : (rest.map (fun x => x.id)).Nodup := by
        rw [List.map_cons] at hnd
        exact (List.nodup_cons.mp hnd).2
      obtain ⟨b, hfind, hbt⟩ := ih a hndrest harest haid
      unfold markRemoved
      rw [if_neg hc]
      refine ⟨b, ?_, hbt⟩
      rw [List.find?_cons]
      simp [hc, hfind]

lemma resolvePhaseTwo_some (rng : Nat → Nat) (actors : List Actor) (k : Nat)
    (hL : getActiveLoyalists actors ≠ []) :
    ∃ a, a ∈ getActiveLoyalists actors ∧
      resolvePhaseTwo rng actors k
        = some (Int.ofNat a.id, markRemoved actors a.id, k + 1) := by
  obtain ⟨a, hrc, hmem⟩ := randomChoice_some (getActiveLoyalists actors) (rng k) hL
  refine ⟨a, hmem, ?_⟩
  unfold resolvePhaseTwo
  rw [if_neg (by simpa [List.length_eq_zero] using hL)]
  rw [hrc]

lemma isGameOver_false_spec (actors : List Actor) (h : isGameOver actors = false) :
    getActiveTraitors actors ≠ [] ∧ getActiveLoyalists actors ≠ [] := by
  unfold isGameOver at h
  simp only [Bool.or_eq_false_iff, decide_eq_false_iff_not] at h
  exact ⟨fun hnil => h.1 (by simp [hnil]), fun hnil => h.2 (by simp [hnil])⟩

/-! The master invariant of the round loop. -/

/-- The per-round population decrement chain: each recorded round leaves
either one or two fewer active actors than the count before it. -/
def chainB : Nat → List RoundResult → Bool
  | _, [] => true
  | n, r :: rest =>
    (decide (r.remainingActors.length + 1 = n) || decide (r.remainingActors.length + 2 = n))
      && chainB r.remainingActors.length rest

/-- Id/faction assignment of the constructor: loyalists are exactly the ids
below the loyalist count. -/
def typesOk (L : Nat) (actors : List Actor) : Prop :=
  ∀ a ∈ actors, a.type = ActorType.loyalist ↔ a.id < L

lemma typesOk_markRemoved (L rid : Nat) (actors : List Actor) (h : typesOk L actors) :
    typesOk L (markRemoved actors rid) := by
  intro b hb
  obtain ⟨a, ha, hid, hty⟩ := markRemoved_pairs rid actors b hb
  rw [hty, hid]
  exact h a ha

lemma actorType_cases (t : ActorType) :
    t = ActorType.loyalist ∨ t = ActorType.traitor := by
  cases t
  · exact Or.inl rfl
  · exact Or.inr rfl

lemma getLast?_cons_of_ne_nil {α : Type} (a : α) (l : List α) (h : l ≠ []) :
    (a :: l).getLast? = l.getLast? := by
  cases l with
  | nil => exact absurd rfl h
  | cons b t => rfl

lemma runAux_master (rng : Nat → Nat) (gt : GameType) (ec : EndCondition) (L : Nat) :
    ∀ (fuel : Nat) (actors : List Actor) (susp : List (Nat × Nat)) (k round : Nat)
      (history : List RoundResult),
      (actors.map (fun a => a.id)).Nodup →
      typesOk L actors →
      (getActiveActors actors).length + 1 ≤ fuel →
      isGameOver actors = false →
      ∃ res newRounds finalActors,
        runAux rng gt ec fuel actors susp k round history = some res ∧
        res.endCondition = ec ∧
        res.rounds = history ++ newRounds ∧
        newRounds ≠ [] ∧
        res.totalRounds = round + newRounds.length ∧
        chainB (getActiveActors actors).length newRounds = true ∧
        res.outcome = getOutcome ec finalActors ∧
        (newRounds.getLast?).map (fun r => r.remainingActors)
          = some (getActiveActors finalActors) ∧
        (ec = EndCondition.first_traitor_removed →
          (∀ i r, i + 1 < newRounds.length → newRounds.get? i = some r →
            r.phaseOneRemoved < L) ∧
          (∀ r, newRounds.getLast? = some r → L ≤ r.phaseOneRemoved →
            r.phaseTwoRemoved = -1 ∧ res.outcome = Outcome.traitor_removed)) ∧
        (ec = EndCondition.all_one_type →
          isGameOver finalActors = true ∧
          ¬(getActiveLoyalists finalActors = [] ∧ getActiveTraitors finalActors = [])) := by
  intro fuel
  induction fuel with
  | zero =>
    intro actors susp k round history _ _ hfuel _
    omega
  | succ fuel ih =>
    intro actors susp k round history hnd hty hfuel hgo
    obtain ⟨hT, hLy⟩ := isGameOver_false_spec actors hgo
    have hA : getActiveActors actors ≠ [] := by
      obtain ⟨a0, ha0⟩ := List.exists_mem_of_ne_nil _ hLy
      exact List.ne_nil_of_mem (mem_active_of_mem_loyalists actors a0 ha0)
    have hn2 : 2 ≤ (getActiveActors actors).length := by
      have hp := active_partition actors
      have h1 : 0 < (getActiveLoyalists actors).length := List.length_pos.mpr hLy
      have h2 : 0 < (getActiveTraitors actors).length := List.length_pos.mpr hT
      omega
    obtain ⟨v, rid, s1, k1, hp1, hridmem⟩ := resolvePhaseOne_some rng gt actors susp k hA
    obtain ⟨a, hamem, haid⟩ := List.mem_map.mp hridmem
    obtain ⟨haact, hastat⟩ := mem_active_spec actors a hamem
    obtain ⟨hcnt, hcntL, hcntT⟩ := markRemoved_counts rid actors a hnd haact haid hastat
    obtain ⟨b, hfind, hbt⟩ := markRemoved_find_type rid actors a hnd haact haid
    have hnd1 : ((markRemoved actors rid).map (fun x => x.id)).Nodup := by
      rw [markRemoved_ids]
      exact hnd
    have hty1 : typesOk L (markRemoved actors rid) := typesOk_markRemoved L rid actors hty
    rw [runAux, if_neg (by simp [hgo]), hp1]
    simp only []
    rw [hfind]
    simp only []
    simp only [hbt]
    by_cases hftr :
        (decide (ec = EndCondition.first_traitor_removed)
          && decide (a.type = ActorType.traitor)) = true
    · rw [if_pos hftr]
      simp only [Bool.and_eq_true, decide_eq_true_eq] at hftr
      obtain ⟨hec, hat⟩ := hftr
      have hTr1 : getActiveLoyalists (markRemoved actors rid) = getActiveLoyalists actors :=
        (hcntT hat).1
      refine ⟨_, _, markRemoved actors rid, rfl, rfl, rfl, by simp, by simp, ?_, rfl,
        by simp, ?_, ?_⟩
      · simp only [chainB, Bool.and_eq_true, Bool.or_eq_true, decide_eq_true_eq]
        exact ⟨Or.inl hcnt, trivial⟩
      · intro _
        constructor
        · intro i r hi _
          simp only [List.length_singleton] at hi
          omega
        · intro r hlast _
          simp only [List.getLast?_singleton, Option.some.injEq] at hlast
          subst hlast
          refine ⟨rfl, ?_⟩
          rw [hec]
          unfold getOutcome
          rw [if_neg (by simp [List.length_eq_zero, hTr1, hLy])]
      · intro hec'
        rw [hec] at hec'
        simp at hec'
    · rw [if_neg hftr]
      have hloyal_of_ftr : ec = EndCondition.first_traitor_removed →
          a.type = ActorType.loyalist := by
        intro hec
        rcases actorType_cases a.type with h | h
        · exact h
        · exact absurd (by simp [hec, h]) hftr
      by_cases hgo1 : isGameOver (markRemoved actors rid) = true
      · rw [if_pos hgo1]
        refine ⟨_, _, markRemoved actors rid, rfl, rfl, rfl, by simp, by simp, ?_, rfl,
          by simp, ?_, ?_⟩
        · simp only [chainB, Bool.and_eq_true, Bool.or_eq_true, decide_eq_true_eq]
          exact ⟨Or.inl hcnt, trivial⟩
        · intro hec
          constructor
          · intro i r hi _
            simp only [List.length_singleton] at hi
            omega
          · intro r hlast hLr
            simp only [List.getLast?_singleton, Option.some.injEq] at hlast
            subst hlast
            exfalso
            have hLr2 : L ≤ rid := hLr
            have hlt : a.id < L := (hty a haact).mp (hloyal_of_ftr hec)
            simp only [haid] at hlt
            omega
        · intro _
          refine ⟨hgo1, ?_⟩
          rintro ⟨hL0, hT0⟩
          rcases actorType_cases a.type with h | h
          · exact hT (by rw [← (hcntL h).1]; exact hT0)
          · exact hLy (by rw [← (hcntT h).1]; exact hL0)
      · rw [if_neg hgo1]
        have hgo1f : isGameOver (markRemoved actors rid) = false := by
          simpa using hgo1
        obtain ⟨hT1, hLy1⟩ := isGameOver_false_spec _ hgo1f
        obtain ⟨bb, hbbmem, hp2⟩ := resolvePhaseTwo_some rng (markRemoved actors rid) k1 hLy1
        obtain ⟨hbbin, hbbact, hbbloyal⟩ := mem_loyalists_spec _ bb hbbmem
        obtain ⟨hcnt2, hcnt2L, _⟩ :=
          markRemoved_counts bb.id (markRemoved actors rid) bb hnd1 hbbin rfl hbbact
        have hT2 : getActiveTraitors (markRemoved (markRemoved actors rid) bb.id)
            = getActiveTraitors (markRemoved actors rid) := (hcnt2L hbbloyal).1
        rw [hp2]
        simp only []
        by_cases hgo2 : isGameOver (markRemoved (markRemoved actors rid) bb.id) = true
        · rw [if_pos hgo2]
          refine ⟨_, _, markRemoved (markRemoved actors rid) bb.id, rfl, rfl, rfl,
            by simp, by simp, ?_, rfl, by simp, ?_, ?_⟩
          · simp only [chainB, Bool.and_eq_true, Bool.or_eq_true, decide_eq_true_eq]
            refine ⟨Or.inr ?_, trivial⟩
            show (getActiveActors (markRemoved (markRemoved actors rid) bb.id)).length + 2
              = (getActiveActors actors).length
            omega
          · intro hec
            constructor
            · intro i r hi _
              simp only [List.length_singleton] at hi
              omega
            · intro r hlast hLr
              simp only [List.getLast?_singleton, Option.some.injEq] at hlast
              subst hlast
              exfalso
              have hLr2 : L ≤ rid := hLr
              have hlt : a.id < L := (hty a haact).mp (hloyal_of_ftr hec)
              simp only [haid] at hlt
              omega
          · intro _
            refine ⟨hgo2, ?_⟩
            rintro ⟨_, hT0⟩
            exact hT1 (by rw [← hT2]; exact hT0)
        · rw [if_neg hgo2]
          have hnd2 : ((markRemoved (markRemoved actors rid) bb.id).map
              (fun x => x.id)).Nodup := by
            rw [markRemoved_ids]
            exact hnd1
          have hty2 : typesOk L (markRemoved (markRemoved actors rid) bb.id) :=
            typesOk_markRemoved L bb.id _ hty1
          have hfuel2 :
              (getActiveActors (markRemoved (markRemoved actors rid) bb.id)).length + 1
                ≤ fuel := by
            omega
          obtain ⟨res, newR2, finalA, hrun, hecond, hrounds, hnn, htot, hchain, hout,
            hlastmap, hftrb, haotb⟩ :=
            ih (markRemoved (markRemoved actors rid) bb.id) s1 (k1 + 1) (round + 1)
              (history ++
                [{ roundNumber := round + 1, phaseOneVotes := v, phaseOneRemoved := rid,
                   phaseTwoRemoved := Int.ofNat bb.id,
                   remainingActors :=
                     getActiveActors (markRemoved (markRemoved actors rid) bb.id) }])
              hnd2 hty2 hfuel2 (by simpa using hgo2)
          refine ⟨res,
            ({ roundNumber := round + 1, phaseOneVotes := v, phaseOneRemoved := rid,
               phaseTwoRemoved := Int.ofNat bb.id,
               remainingActors :=
                 getActiveActors (markRemoved (markRemoved actors rid) bb.id) } :
              RoundResult) :: newR2,
            finalA, hrun, hecond, ?_, by simp, ?_, ?_, hout, ?_, ?_, haotb⟩
          · rw [hrounds, List.append_assoc]
            rfl
          · rw [htot, List.length_cons]
            omega
          · simp only [chainB, Bool.and_eq_true, Bool.or_eq_true, decide_eq_true_eq]
            refine ⟨Or.inr ?_, hchain⟩
            show (getActiveActors (markRemoved (markRemoved actors rid) bb.id)).length + 2
              = (getActiveActors actors).length
            omega
          · rw [getLast?_cons_of_ne_nil _ _ hnn]
            exact hlastmap
          · intro hec
            obtain ⟨hfb1, hfb2⟩ := hftrb hec
            constructor
            · intro i r hi hr
              cases i with
              | zero =>
                simp only [List.get?_cons_zero, Option.some.injEq] at hr
                subst hr
                have hlt : a.id < L := (hty a haact).mp (hloyal_of_ftr hec)
                show rid < L
                omega
              | succ i =>
                rw [List.get?_cons_succ] at hr
                rw [List.length_cons] at hi
                exact hfb1 i r (by omega) hr
            · intro r hlast hLr
              rw [getLast?_cons_of_ne_nil _ _ hnn] at hlast
              exact hfb2 r hlast hLr

/-! Initial-roster facts and the run-level claims. -/

lemma initActors_ids_nodup (L T : Nat) :
    ((initActors L T).map (fun a => a.id)).Nodup := by
  unfold initActors
  rw [List.map_append, List.map_map, List.map_map]
  have h1 : ((fun a => a.id) ∘ fun i =>
      ({ id := i, type := ActorType.loyalist, status := ActorStatus.active } : Actor))
      = fun i => i := rfl
  have h2 : ((fun a => a.id) ∘ fun i =>
      ({ id := L + i, type := ActorType.traitor, status := ActorStatus.active } : Actor))
      = fun i => L + i := rfl
  rw [h1, h2]
  apply List.Nodup.append
  · simpa using List.nodup_range L
  · exact (List.nodup_range T).map (fun x y hxy => by omega)
  · intro x hx hy
    simp only [List.mem_map, List.mem_range] at hx hy
    obtain ⟨i, hi, hix⟩ := hx
    obtain ⟨j, hj, hjx⟩ := hy
    omega

lemma initActors_typesOk (L T : Nat) : typesOk L (initActors L T) := by
  intro a ha
  unfold initActors at ha
  rw [List.mem_append] at ha
  rcases ha with ha | ha
  · obtain ⟨i, hi, rfl⟩ := List.mem_map.mp ha
    rw [List.mem_range] at hi
    exact ⟨fun _ => hi, fun _ => rfl⟩
  · obtain ⟨i, hi, rfl⟩ := List.mem_map.mp ha
    rw [List.mem_range] at hi
    constructor
    · intro h
      exact absurd h (by simp)
    · intro h
      exfalso
      have h2 : L + i < L := h
      omega

lemma getActiveActors_initActors (L T : Nat) :
    getActiveActors (initActors L T) = initActors L T := by
  unfold getActiveActors
  apply List.filter_eq_self.mpr
  intro a ha
  unfold initActors at ha
  rw [List.mem_append] at ha
  rcases ha with ha | ha <;>
    · obtain ⟨i, _, rfl⟩ := List.mem_map.mp ha
      simp

lemma length_initActors (L T : Nat) : (initActors L T).length = L + T := by
  simp [initActors]

lemma isGameOver_initActors (L T : Nat) (hL : 1 ≤ L) (hT : 1 ≤ T) :
    isGameOver (initActors L T) = false := by
  have htr : ({ id := L + 0, type := ActorType.traitor,
                status := ActorStatus.active } : Actor)
      ∈ getActiveTraitors (initActors L T) := by
    unfold getActiveTraitors initActors
    rw [List.mem_filter]
    refine ⟨?_, by simp⟩
    rw [List.mem_append]
    exact Or.inr (List.mem_map.mpr ⟨0, by simpa using hT, rfl⟩)
  have hlo : ({ id := 0, type := ActorType.loyalist,
                status := ActorStatus.active } : Actor)
      ∈ getActiveLoyalists (initActors L T) := by
    unfold getActiveLoyalists initActors
    rw [List.mem_filter]
    refine ⟨?_, by simp⟩
    rw [List.mem_append]
    exact Or.inl (List.mem_map.mpr ⟨0, by simpa using hL, rfl⟩)
  have h1 := List.length_pos.mpr (List.ne_nil_of_mem htr)
  have h2 := List.length_pos.mpr (List.ne_nil_of_mem hlo)
  unfold isGameOver
  simp only [Bool.or_eq_false_iff, decide_eq_false_iff_not]
  omega

lemma runGame_master (L T : Nat) (ec : EndCondition) (gt : GameType) (rng : Nat → Nat)
    (hL : 1 ≤ L) (hT : 1 ≤ T) :
    ∃ res newRounds finalActors,
      runGame L T ec gt rng = some res ∧
      res.endCondition = ec ∧
      res.rounds = newRounds ∧
      newRounds ≠ [] ∧
      res.totalRounds = newRounds.length ∧
      chainB (L + T) newRounds = true ∧
      res.outcome = getOutcome ec finalActors ∧
      (newRounds.getLast?).map (fun r => r.remainingActors)
        = some (getActiveActors finalActors) ∧
      (ec = EndCondition.first_traitor_removed →
        (∀ i r, i + 1 < newRounds.length → newRounds.get? i = some r →
          r.phaseOneRemoved < L) ∧
        (∀ r, newRounds.getLast? = some r → L ≤ r.phaseOneRemoved →
          r.phaseTwoRemoved = -1 ∧ res.outcome = Outcome.traitor_removed)) ∧
      (ec = EndCondition.all_one_type →
        isGameOver finalActors = true ∧
        ¬(getActiveLoyalists finalActors = [] ∧ getActiveTraitors finalActors = [])) := by
  have hactlen : (getActiveActors (initActors L T)).length = L + T := by
    rw [getActiveActors_initActors, length_initActors]
  obtain ⟨res, newRounds, finalActors, h1, h2, h3, h4, h5, h6, h7, h8, h9, h10⟩ :=
    runAux_master rng gt ec L (L + T + 1) (initActors L T) [] 0 0 []
      (initActors_ids_nodup L T) (initActors_typesOk L T)
      (by rw [hactlen]) (isGameOver_initActors L T hL hT)
  rw [hactlen] at h6
  exact ⟨res, newRounds, finalActors, h1, h2, by simpa using h3, h4, by simpa using h5,
    h6, h7, h8, h9, h10⟩

/-- C9.  For any valid configuration (at least one loyalist and one
traitor) and any random stream, the whole run succeeds: fuel never runs out
and no random draw ever happens on an empty candidate list (an empty draw
would surface as a `none`, since `randomChoice` models the out-of-bounds
`undefined` read by `Option`). -/
theorem claim_C9 (L T : Nat) (ec : EndCondition) (gt : GameType) (rng : Nat → Nat)
    (hL : 1 ≤ L) (hT : 1 ≤ T) :
    (runGame L T ec gt rng).isSome = true := by
  obtain ⟨res, newRounds, finalActors, h1, _⟩ := runGame_master L T ec gt rng hL hT
  rw [h1]
  rfl

/-- C9, witness: the two-actor configuration. -/
theorem claim_C9_w :
    (1 ≤ 1) ∧
    (runGame 1 1 EndCondition.first_traitor_removed GameType.random
      (fun _ => 0)).isSome = true := by
  exact ⟨Nat.le_refl 1,
    claim_C9 1 1 EndCondition.first_traitor_removed GameType.random (fun _ => 0)
      (Nat.le_refl 1) (Nat.le_refl 1)⟩

lemma chainB_length_le :
    ∀ (l : List RoundResult) (n : Nat), chainB n l = true → l.length ≤ n := by
  intro l
  induction l with
  | nil =>
    intro n _
    simp
  | cons x rest ih =>
    intro n hc
    simp only [chainB, Bool.and_eq_true, Bool.or_eq_true, decide_eq_true_eq] at hc
    have := ih x.remainingActors.length hc.2
    rcases hc.1 with h | h <;>
      · rw [List.length_cons]
        omega

/-- C5.  Every valid configuration terminates with a defined result:
`totalRounds ≥ 1`, `rounds.length = totalRounds`, and the number of rounds
is bounded by the initial population size (one forced elimination per
round; the tie-break sub-loop is bounded separately, see the phase-one
lemmas). -/
theorem claim_C5 (L T : Nat) (ec : EndCondition) (gt : GameType) (rng : Nat → Nat)
    (hL : 1 ≤ L) (hT : 1 ≤ T) :
    ∃ res, runGame L T ec gt rng = some res ∧
      1 ≤ res.totalRounds ∧ res.rounds.length = res.totalRounds ∧
      res.totalRounds ≤ L + T := by
  obtain ⟨res, newRounds, finalActors, h1, _, h3, h4, h5, h6, _⟩ :=
    runGame_master L T ec gt rng hL hT
  refine ⟨res, h1, ?_, ?_, ?_⟩
  · rw [h5]
    have := List.length_pos.mpr h4
    omega
  · rw [h3, h5]
  · rw [h5]
    exact chainB_length_le newRounds (L + T) h6

/-- C5, witness: the two-actor configuration. -/
theorem claim_C5_w :
    (1 ≤ 1) ∧
    ∃ res, runGame 1 1 EndCondition.first_traitor_removed GameType.random
        (fun _ => 0) = some res ∧
      1 ≤ res.totalRounds ∧ res.rounds.length = res.totalRounds ∧
      res.totalRounds ≤ 1 + 1 := by
  exact ⟨Nat.le_refl 1,
    claim_C5 1 1 EndCondition.first_traitor_removed GameType.random (fun _ => 0)
      (Nat.le_refl 1) (Nat.le_refl 1)⟩

lemma chainB_pairs :
    ∀ (l : List RoundResult) (n : Nat), chainB n l = true →
      ∀ i r r', l.get? i = some r → l.get? (i + 1) = some r' →
        r'.remainingActors.length + 1 = r.remainingActors.length ∨
        r'.remainingActors.length + 2 = r.remainingActors.length := by
  intro l
  induction l with
  | nil =>
    intro n _ i r r' hr _
    simp at hr
  | cons x rest ih =>
    intro n hc i r r' hr hr'
    simp only [chainB, Bool.and_eq_true] at hc
    cases i with
    | zero =>
      simp only [List.get?_cons_zero, Option.some.injEq] at hr
      subst hr
      rw [List.get?_cons_succ] at hr'
      cases rest with
      | nil => simp at hr'
      | cons y t =>
        simp only [List.get?_cons_zero, Option.some.injEq] at hr'
        subst hr'
        have hc2 := hc.2
        simp only [chainB, Bool.and_eq_true, Bool.or_eq_true, decide_eq_true_eq] at hc2
        exact hc2.1
    | succ i =>
      rw [List.get?_cons_succ] at hr
      rw [List.get?_cons_succ] at hr'
      exact ih _ hc.2 i r r' hr hr'

/-- C6.  Phase one removes exactly one active actor and phase two at most
one more, so consecutive recorded rounds have strictly decreasing
`remainingActors`: each round's active count is the previous round's count
minus exactly 1 or exactly 2. -/
theorem claim_C6 (L T : Nat) (ec : EndCondition) (gt : GameType) (rng : Nat → Nat)
    (hL : 1 ≤ L) (hT : 1 ≤ T) :
    ∃ res, runGame L T ec gt rng = some res ∧
      ∀ i r r', res.rounds.get? i = some r → res.rounds.get? (i + 1) = some r' →
        r'.remainingActors.length + 1 = r.remainingActors.length ∨
        r'.remainingActors.length + 2 = r.remainingActors.length := by
  obtain ⟨res, newRounds, finalActors, h1, _, h3, _, _, h6, _⟩ :=
    runGame_master L T ec gt rng hL hT
  refine ⟨res, h1, ?_⟩
  rw [h3]
  exact chainB_pairs newRounds (L + T) h6

/-- C6, witness: a three-actor configuration. -/
theorem claim_C6_w :
    (1 ≤ 2) ∧
    ∃ res, runGame 2 1 EndCondition.all_one_type GameType.random
        (fun _ => 0) = some res ∧
      ∀ i r r', res.rounds.get? i = some r → res.rounds.get? (i + 1) = some r' →
        r'.remainingActors.length + 1 = r.remainingActors.length ∨
        r'.remainingActors.length + 2 = r.remainingActors.length := by
  exact ⟨by omega,
    claim_C6 2 1 EndCondition.all_one_type GameType.random (fun _ => 0)
      (by omega) (Nat.le_refl 1)⟩

lemma activeLoyalists_eq_filter (actors : List Actor) :
    getActiveLoyalists actors
      = (getActiveActors actors).filter (fun a => decide (a.type = ActorType.loyalist)) := by
  unfold getActiveActors getActiveLoyalists
  rw [List.filter_filter]
  apply List.filter_congr
  intro a _
  rw [Bool.and_comm]

lemma activeTraitors_eq_filter (actors : List Actor) :
    getActiveTraitors actors
      = (getActiveActors actors).filter (fun a => decide (a.type = ActorType.traitor)) := by
  unfold getActiveActors getActiveTraitors
  rw [List.filter_filter]
  apply List.filter_congr
  intro a _
  rw [Bool.and_comm]

/-- C3.  Under `first_traitor_removed`, any round whose phase-one removal
eliminates a traitor (ids `≥ L` are exactly the traitors) is the final
round, carries the `-1` ("none") sentinel in `phaseTwoRemoved`, and the
run's outcome is `traitor_removed`; and when the game instead ends with no
active loyalist left (the final round's snapshot has no loyalist), the
outcome is `no_loyalists`. -/
theorem claim_C3 (L T : Nat) (gt : GameType) (rng : Nat → Nat)
    (hL : 1 ≤ L) (hT : 1 ≤ T) :
    ∃ res, runGame L T EndCondition.first_traitor_removed gt rng = some res ∧
      (∀ i r, res.rounds.get? i = some r → L ≤ r.phaseOneRemoved →
        i = res.rounds.length - 1 ∧ r.phaseTwoRemoved = -1 ∧
        res.outcome = Outcome.traitor_removed) ∧
      (∀ r, res.rounds.getLast? = some r →
        r.remainingActors.filter (fun a => decide (a.type = ActorType.loyalist)) = [] →
        res.outcome = Outcome.no_loyalists) := by
  obtain ⟨res, newRounds, finalActors, h1, _, h3, h4, _, _, h7, h8, h9, _⟩ :=
    runGame_master L T EndCondition.first_traitor_removed gt rng hL hT
  obtain ⟨hfb1, hfb2⟩ := h9 rfl
  refine ⟨res, h1, ?_, ?_⟩
  · intro i r hr hLr
    rw [h3] at hr ⊢
    have hilt : i < newRounds.length := by
      rcases List.get?_eq_some.mp hr with ⟨h, _⟩
      exact h
    have hlast : i = newRounds.length - 1 := by
      by_cases hi : i + 1 < newRounds.length
      · exact absurd hLr (by have := hfb1 i r hi hr; omega)
      · omega
    have hgl : newRounds.getLast? = some r := by
      rw [List.getLast?_eq_get?, ← hlast]
      exact hr
    obtain ⟨hp2, hout⟩ := hfb2 r hgl hLr
    exact ⟨hlast, hp2, hout⟩
  · intro r hlastr hfilter
    rw [h3] at hlastr
    rw [hlastr] at h8
    simp only [Option.map_some', Option.some.injEq] at h8
    have hgl : getActiveLoyalists finalActors = [] := by
      rw [activeLoyalists_eq_filter, ← h8]
      exact hfilter
    rw [h7]
    unfold getOutcome
    rw [if_pos (by rw [hgl]; rfl)]

/-- C3, witness: the two-actor game, which ends with the lone loyalist
removed (outcome `no_loyalists`). -/
theorem claim_C3_w :
    (1 ≤ 1) ∧
    ∃ res, runGame 1 1 EndCondition.first_traitor_removed GameType.random
        (fun _ => 0) = some res ∧
      (∀ i r, res.rounds.get? i = some r → 1 ≤ r.phaseOneRemoved →
        i = res.rounds.length - 1 ∧ r.phaseTwoRemoved = -1 ∧
        res.outcome = Outcome.traitor_removed) ∧
      (∀ r, res.rounds.getLast? = some r →
        r.remainingActors.filter (fun a => decide (a.type = ActorType.loyalist)) = [] →
        res.outcome = Outcome.no_loyalists) := by
  exact ⟨Nat.le_refl 1,
    claim_C3 1 1 GameType.random (fun _ => 0) (Nat.le_refl 1) (Nat.le_refl 1)⟩

/-- C4.  Under `all_one_type` the loop only halts when one faction is
completely eliminated: the final snapshot has either no loyalist or no
traitor, the outcome is `all_loyalists` exactly when the traitors are gone,
and `all_traitors` exactly when the loyalists are gone. -/
theorem claim_C4 (L T : Nat) (gt : GameType) (rng : Nat → Nat)
    (hL : 1 ≤ L) (hT : 1 ≤ T) :
    ∃ res, runGame L T EndCondition.all_one_type gt rng = some res ∧
      res.rounds ≠ [] ∧
      ∀ r, res.rounds.getLast? = some r →
        (r.remainingActors.filter (fun a => decide (a.type = ActorType.loyalist)) = [] ∨
         r.remainingActors.filter (fun a => decide (a.type = ActorType.traitor)) = []) ∧
        (res.outcome = Outcome.all_loyalists ↔
          r.remainingActors.filter (fun a => decide (a.type = ActorType.traitor)) = []) ∧
        (res.outcome = Outcome.all_traitors ↔
          r.remainingActors.filter (fun a => decide (a.type = ActorType.loyalist)) = []) := by
  obtain ⟨res, newRounds, finalActors, h1, _, h3, h4, _, _, h7, h8, _, h10⟩ :=
    runGame_master L T EndCondition.all_one_type gt rng hL hT
  obtain ⟨hgo, hnboth⟩ := h10 rfl
  refine ⟨res, h1, by rw [h3]; exact h4, ?_⟩
  intro r hlastr
  rw [h3] at hlastr
  rw [hlastr] at h8
  simp only [Option.map_some', Option.some.injEq] at h8
  have hfl : r.remainingActors.filter (fun a => decide (a.type = ActorType.loyalist))
      = getActiveLoyalists finalActors := by
    rw [activeLoyalists_eq_filter, h8]
  have hft : r.remainingActors.filter (fun a => decide (a.type = ActorType.traitor))
      = getActiveTraitors finalActors := by
    rw [activeTraitors_eq_filter, h8]
  unfold isGameOver at hgo
  simp only [Bool.or_eq_true, decide_eq_true_eq] at hgo
  have houtcome : res.outcome =
      (if (getActiveTraitors finalActors).length = 0 then Outcome.all_loyalists
       else Outcome.all_traitors) := h7
  by_cases hz : (getActiveTraitors finalActors).length = 0
  · rw [if_pos hz] at houtcome
    refine ⟨Or.inr (by rw [hft]; exact List.length_eq_zero.mp hz), ?_, ?_⟩
    · constructor
      · intro _
        rw [hft]
        exact List.length_eq_zero.mp hz
      · intro _
        exact houtcome
    · constructor
      · intro hout
        rw [houtcome] at hout
        exact absurd hout (by simp)
      · intro hr
        rw [hfl] at hr
        exact absurd ⟨hr, List.length_eq_zero.mp hz⟩ hnboth
  · rw [if_neg hz] at houtcome
    have hl0 : getActiveLoyalists finalActors = [] := by
      rcases hgo with hgo | hgo
      · exact absurd hgo hz
      · exact List.length_eq_zero.mp hgo
    refine ⟨Or.inl (by rw [hfl]; exact hl0), ?_, ?_⟩
    · constructor
      · intro hout
        rw [houtcome] at hout
        exact absurd hout (by simp)
      · intro hr
        rw [hft] at hr
        exact absurd (List.length_eq_zero.mpr hr) hz
    · constructor
      · intro _
        rw [hfl]
        exact hl0
      · intro _
        exact houtcome

/-- C4, witness: the two-actor game under `all_one_type` ends with the
loyalist eliminated (outcome `all_traitors`). -/
theorem claim_C4_w :
    (1 ≤ 1) ∧
    ∃ res, runGame 1 1 EndCondition.all_one_type GameType.random
        (fun _ => 0) = some res ∧
      res.rounds ≠ [] ∧
      ∀ r, res.rounds.getLast? = some r →
        (r.remainingActors.filter (fun a => decide (a.type = ActorType.loyalist)) = [] ∨
         r.remainingActors.filter (fun a => decide (a.type = ActorType.traitor)) = []) ∧
        (res.outcome = Outcome.all_loyalists ↔
          r.remainingActors.filter (fun a => decide (a.type = ActorType.traitor)) = []) ∧
        (res.outcome = Outcome.all_traitors ↔
          r.remainingActors.filter (fun a => decide (a.type = ActorType.loyalist)) = []) := by
  exact ⟨Nat.le_refl 1,
    claim_C4 1 1 GameType.random (fun _ => 0) (Nat.le_refl 1) (Nat.le_refl 1)⟩

/-! The influence game's tie-break vote. -/

lemma lowFold_inv (infl : Nat → Nat → Nat) (aid : Nat) :
    ∀ (l : List Actor) (low tid : Nat), infl aid tid = low →
      ∃ low' tid',
        l.foldl (fun (acc : Option Nat × Nat) t =>
          match acc.1 with
          | none => (some (infl aid t.id), t.id)
          | some lo =>
            if infl aid t.id < lo then (some (infl aid t.id), t.id) else acc)
          (some low, tid) = (some low', tid') ∧
        infl aid tid' = low' ∧ low' ≤ low ∧
        (∀ u ∈ l, low' ≤ infl aid u.id) ∧
        (tid' = tid ∨ tid' ∈ l.map (fun u => u.id)) := by
  intro l
  induction l with
  | nil =>
    intro low tid hlt
    exact ⟨low, tid, rfl, hlt, Nat.le_refl low, by simp, Or.inl rfl⟩
  | cons t rest ih =>
    intro low tid hlt
    rw [List.foldl_cons]
    simp only []
    by_cases hc : infl aid t.id < low
    · rw [if_pos hc]
      obtain ⟨low', tid', heq, hl1, hl2, hl3, hl4⟩ := ih (infl aid t.id) t.id rfl
      refine ⟨low', tid', heq, hl1, by omega, ?_, ?_⟩
      · intro u hu
        rcases List.mem_cons.mp hu with hu | hu
        · rw [hu]
          exact hl2
        · exact hl3 u hu
      · rcases hl4 with h4 | h4
        · exact Or.inr (by simp [h4])
        · exact Or.inr (by simp only [List.map_cons, List.mem_cons]; exact Or.inr h4)
    · rw [if_neg hc]
      obtain ⟨low', tid', heq, hl1, hl2, hl3, hl4⟩ := ih low tid hlt
      refine ⟨low', tid', heq, hl1, hl2, ?_, ?_⟩
      · intro u hu
        rcases List.mem_cons.mp hu with hu | hu
        · rw [hu]
          omega
        · exact hl3 u hu
      · rcases hl4 with h4 | h4
        · exact Or.inl h4
        · exact Or.inr (by simp only [List.map_cons, List.mem_cons]; exact Or.inr h4)

lemma pickLowest_spec (infl : Nat → Nat → Nat) (aid : Nat) (ts : List Actor)
    (h : ts ≠ []) :
    pickLowestInfluence infl aid ts ∈ ts.map (fun u => u.id) ∧
    ∀ u ∈ ts, infl aid (pickLowestInfluence infl aid ts) ≤ infl aid u.id := by
  cases ts with
  | nil => exact absurd rfl h
  | cons t0 rest =>
    unfold pickLowestInfluence
    simp only []
    rw [List.foldl_cons]
    simp only []
    obtain ⟨low', tid', heq, hl1, hl2, hl3, hl4⟩ :=
      lowFold_inv infl aid rest (infl aid t0.id) t0.id rfl
    rw [heq]
    constructor
    · rcases hl4 with h4 | h4
      · simp [h4]
      · simp only [List.map_cons, List.mem_cons]
        exact Or.inr h4
    · intro u hu
      show infl aid tid' ≤ infl aid u.id
      rw [hl1]
      rcases List.mem_cons.mp hu with hu | hu
      · rw [hu]
        exact hl2
      · exact hl3 u hu

lemma influenceVoteFold (infl : Nat → Nat → Nat) (ts : List Actor)
    (h : 0 < ts.length) :
    ∀ (voters : List Actor) (votes : List (Nat × Nat)), (keysOf votes).Nodup →
      sumSnd (voters.foldl (fun votes actor =>
          if 0 < ts.length then
            mapSet votes (pickLowestInfluence infl actor.id ts)
              (mapGet votes (pickLowestInfluence infl actor.id ts) + 1)
          else votes) votes)
        = sumSnd votes + voters.length ∧
      (keysOf (voters.foldl (fun votes actor =>
          if 0 < ts.length then
            mapSet votes (pickLowestInfluence infl actor.id ts)
              (mapGet votes (pickLowestInfluence infl actor.id ts) + 1)
          else votes) votes)).Nodup ∧
      ∀ x ∈ keysOf (voters.foldl (fun votes actor =>
          if 0 < ts.length then
            mapSet votes (pickLowestInfluence infl actor.id ts)
              (mapGet votes (pickLowestInfluence infl actor.id ts) + 1)
          else votes) votes),
        x ∈ keysOf votes ∨ ∃ a ∈ voters, x = pickLowestInfluence infl a.id ts := by
  intro voters
  induction voters with
  | nil =>
    intro votes hnd
    exact ⟨by simp, hnd, fun x hx => Or.inl hx⟩
  | cons a rest ih =>
    intro votes hnd
    rw [List.foldl_cons, if_pos h]
    obtain ⟨hsum, hnd', hkeys⟩ :=
      ih (mapSet votes (pickLowestInfluence infl a.id ts)
        (mapGet votes (pickLowestInfluence infl a.id ts) + 1))
        (keysOf_nodup_mapSet votes _ _ hnd)
    refine ⟨?_, hnd', ?_⟩
    · rw [hsum, sumSnd_mapSet_bump _ votes hnd, List.length_cons]
      omega
    · intro x hx
      rcases hkeys x hx with hx' | hx'
      · rcases mem_keysOf_mapSet _ _ _ _ hx' with hx'' | hx''
        · exact Or.inl hx''
        · exact Or.inr ⟨a, List.mem_cons_self a rest, hx''⟩
      · obtain ⟨b, hb, hbx⟩ := hx'
        exact Or.inr ⟨b, List.mem_cons_of_mem a hb, hbx⟩

/-- C7 (amended).  In the influence-based game the lowest-influence rule IS
applied to tie-break re-votes: the restricted re-vote is deterministic,
every active actor casts exactly one vote, and each voter's vote lands on
the tied target over which that voter holds the lowest influence score (a
member of the restricted set minimising the voter's influence). -/
theorem claim_C7 (infl : Nat → Nat → Nat) (actors ts : List Actor) (h : ts ≠ []) :
    sumSnd (influenceConductVote infl actors (some ts))
      = (getActiveActors actors).length ∧
    ∀ x ∈ keysOf (influenceConductVote infl actors (some ts)),
      ∃ a ∈ getActiveActors actors,
        x = pickLowestInfluence infl a.id ts ∧
        x ∈ ts.map (fun u => u.id) ∧
        ∀ u ∈ ts, infl a.id x ≤ infl a.id u.id := by
  have hlen : 0 < ts.length := List.length_pos.mpr h
  obtain ⟨hsum, _, hkeys⟩ :=
    influenceVoteFold infl ts hlen (getActiveActors actors) [] (by simp [keysOf])
  constructor
  · have : sumSnd (influenceConductVote infl actors (some ts))
        = sumSnd ([] : List (Nat × Nat)) + (getActiveActors actors).length := hsum
    simpa [sumSnd] using this
  · intro x hx
    rcases hkeys x hx with hx' | hx'
    · simp [keysOf] at hx'
    · obtain ⟨a, ha, hax⟩ := hx'
      obtain ⟨hmem, hmin⟩ := pickLowest_spec infl a.id ts h
      exact ⟨a, ha, hax, by rw [hax]; exact hmem, by rw [hax]; exact hmin⟩

/-- C7, witness: the influence tie-break scenario of `claim_C7_cex`, with
the realizable table `inflReal`. -/
theorem claim_C7_w :
    (([actorL0, actorL1] : List Actor) ≠ []) ∧
    (sumSnd (influenceConductVote inflReal [actorL0, actorL1, actorT2]
        (some [actorL0, actorL1]))
      = (getActiveActors [actorL0, actorL1, actorT2]).length ∧
    ∀ x ∈ keysOf (influenceConductVote inflReal [actorL0, actorL1, actorT2]
        (some [actorL0, actorL1])),
      ∃ a ∈ getActiveActors [actorL0, actorL1, actorT2],
        x = pickLowestInfluence inflReal a.id [actorL0, actorL1] ∧
        x ∈ [actorL0, actorL1].map (fun u => u.id) ∧
        ∀ u ∈ [actorL0, actorL1], inflReal a.id x ≤ inflReal a.id u.id) := by
  exact ⟨by decide,
    claim_C7 inflReal [actorL0, actorL1, actorT2] [actorL0, actorL1] (by decide)⟩

/-! Statistics: supporting lemmas for the mode computation. -/

/-- Number of occurrences of `v` in `rs`. -/
def countVal (rs : List Nat) (v : Nat) : Nat :=
  match rs with
  | [] => 0
  | x :: xs => (if x = v then 1 else 0) + countVal xs v

lemma countVal_append (v : Nat) :
    ∀ rs t : List Nat, countVal (rs ++ t) v = countVal rs v + countVal t v := by
  intro rs t
  induction rs with
  | nil => simp [countVal]
  | cons x xs ih =>
    show (if x = v then 1 else 0) + countVal (xs ++ t) v
      = ((if x = v then 1 else 0) + countVal xs v) + countVal t v
    rw [ih]
    omega

lemma countVal_pos_of_mem (v : Nat) :
    ∀ rs : List Nat, v ∈ rs → 1 ≤ countVal rs v := by
  intro rs
  induction rs with
  | nil =>
    intro h
    simp at h
  | cons x xs ih =>
    intro h
    rcases List.mem_cons.mp h with h | h
    · simp [countVal, h]
    · have := ih h
      unfold countVal
      by_cases hx : x = v <;> simp [hx] <;> omega

lemma firstIdx_append_of_mem (v : Nat) :
    ∀ (rs t : List Nat), v ∈ rs → firstIdx (rs ++ t) v = firstIdx rs v := by
  intro rs t
  induction rs with
  | nil =>
    intro h
    simp at h
  | cons x xs ih =>
    intro h
    by_cases hx : x = v
    · simp [firstIdx, hx]
    · rcases List.mem_cons.mp h with h | h
      · exact absurd h.symm hx
      · simp [firstIdx, hx, ih h]

lemma firstIdx_lt_length_of_mem (v : Nat) :
    ∀ rs : List Nat, v ∈ rs → firstIdx rs v < rs.length := by
  intro rs
  induction rs with
  | nil =>
    intro h
    simp at h
  | cons x xs ih =>
    intro h
    by_cases hx : x = v
    · simp [firstIdx, hx]
    · rcases List.mem_cons.mp h with h | h
      · exact absurd h.symm hx
      · simp only [firstIdx, hx, if_false, List.length_cons]
        have := ih h
        omega

lemma firstIdx_snoc_self (v : Nat) :
    ∀ rs : List Nat, v ∉ rs → firstIdx (rs ++ [v]) v = rs.length := by
  intro rs
  induction rs with
  | nil =>
    intro _
    simp [firstIdx]
  | cons x xs ih =>
    intro h
    have hx : ¬ x = v := fun hxv => h (by rw [hxv]; exact List.mem_cons_self v xs)
    have hxs : v ∉ xs := fun hv => h (List.mem_cons_of_mem x hv)
    simp [firstIdx, hx, ih hxs]

lemma mem_keys_iff_any (m : List (Nat × Nat)) (key : Nat) :
    key ∈ keysOf m ↔ m.any (fun p => decide (p.1 = key)) = true := by
  constructor
  · intro h
    obtain ⟨p, hp, hpk⟩ := List.mem_map.mp h
    exact List.any_eq_true.mpr ⟨p, hp, by simp [hpk]⟩
  · intro h
    obtain ⟨p, hp, hpk⟩ := List.any_eq_true.mp h
    simp only [decide_eq_true_eq] at hpk
    exact List.mem_map.mpr ⟨p, hp, hpk⟩

lemma keysOf_map_update (m : List (Nat × Nat)) (key v : Nat) :
    keysOf (m.map (fun p => if p.1 = key then (key, v) else p)) = keysOf m := by
  unfold keysOf
  rw [List.map_map]
  apply List.map_congr_left
  intro p _
  by_cases hc : p.1 = key <;> simp [hc]

lemma keysOf_mapSet_char (m : List (Nat × Nat)) (key v : Nat) :
    keysOf (mapSet m key v)
      = if key ∈ keysOf m then keysOf m else keysOf m ++ [key] := by
  unfold mapSet
  by_cases hin : key ∈ keysOf m
  · rw [if_pos ((mem_keys_iff_any m key).mp hin), if_pos hin]
    exact keysOf_map_update m key v
  · have hany : ¬ m.any (fun p => decide (p.1 = key)) = true :=
      fun h => hin ((mem_keys_iff_any m key).mpr h)
    rw [if_neg hany, if_neg hin]
    unfold keysOf
    rw [List.map_append]
    rfl

lemma decide_eq_true_of (p : Prop) [inst : Decidable p] (h : p) : decide p = true :=
  decide_eq_true h

lemma find?_map_update_hit (key v : Nat) :
    ∀ m : List (Nat × Nat), m.any (fun p => decide (p.1 = key)) = true →
      (m.map (fun p => if p.1 = key then (key, v) else p)).find?
        (fun p => decide (p.1 = key)) = some (key, v) := by
  intro m
  induction m with
  | nil =>
    intro h
    simp at h
  | cons p rest ih =>
    intro hany
    rw [List.map_cons]
    by_cases hc : p.1 = key
    · rw [if_pos hc, List.find?_cons]
      rw [show (decide ((key, v).1 = key)) = true from by simp]
    · rw [if_neg hc, List.find?_cons]
      rw [show (decide (p.1 = key)) = false from by simp [hc]]
      apply ih
      rw [List.any_cons] at hany
      simpa [hc] using hany

lemma find?_map_update_ne (key v k' : Nat) (hne : ¬ k' = key) :
    ∀ m : List (Nat × Nat),
      (m.map (fun p => if p.1 = key then (key, v) else p)).find?
        (fun p => decide (p.1 = k'))
      = m.find? (fun p => decide (p.1 = k')) := by
  intro m
  induction m with
  | nil => rfl
  | cons p rest ih =>
    rw [List.map_cons, List.find?_cons, List.find?_cons]
    by_cases hc : p.1 = key
    · rw [if_pos hc]
      rw [show (decide ((key, v).1 = k')) = false from by
        simp only [decide_eq_false_iff_not]
        intro h
        exact hne h.symm]
      rw [show (decide (p.1 = k')) = false from by
        simp only [decide_eq_false_iff_not]
        intro h
        exact hne (h ▸ hc)]
      exact ih
    · rw [if_neg hc]
      by_cases hk : p.1 = k'
      · rw [show (decide (p.1 = k')) = true from by simp [hk]]
      · rw [show (decide (p.1 = k')) = false from by simp [hk]]
        exact ih

lemma mapGet_mapSet_self (key v : Nat) :
    ∀ m : List (Nat × Nat), mapGet (mapSet m key v) key = v := by
  intro m
  unfold mapSet
  by_cases hany : m.any (fun p => decide (p.1 = key)) = true
  · rw [if_pos hany]
    unfold mapGet
    rw [find?_map_update_hit key v m hany]
  · rw [if_neg hany]
    have hfind : m.find? (fun p => decide (p.1 = key)) = none := by
      apply List.find?_eq_none.mpr
      intro p hp hdec
      exact hany (List.any_eq_true.mpr ⟨p, hp, hdec⟩)
    unfold mapGet
    rw [List.find?_append, hfind]
    rw [show (List.find? (fun p => decide (p.1 = key)) [(key, v)]) = some (key, v) from by
      rw [List.find?_cons]
      rw [show (decide ((key, v).1 = key)) = true from by simp]]
    rfl

lemma mapGet_mapSet_ne (key v k' : Nat) (hne : ¬ k' = key) :
    ∀ m : List (Nat × Nat), mapGet (mapSet m key v) k' = mapGet m k' := by
  intro m
  unfold mapSet
  by_cases hany : m.any (fun p => decide (p.1 = key)) = true
  · rw [if_pos hany]
    unfold mapGet
    rw [find?_map_update_ne key v k' hne m]
  · rw [if_neg hany]
    unfold mapGet
    rw [List.find?_append]
    rw [show (List.find? (fun p => decide (p.1 = k')) [(key, v)]) = none from by
      rw [List.find?_cons]
      rw [show (decide ((key, v).1 = k')) = false from by
        simp only [decide_eq_false_iff_not]
        intro h
        exact hne h.symm]
      rfl]
    cases m.find? (fun p => decide (p.1 = k')) <;> rfl

lemma mapGet_of_mem_nodup :
    ∀ (m : List (Nat × Nat)) (e : Nat × Nat), (keysOf m).Nodup → e ∈ m →
      mapGet m e.1 = e.2 := by
  intro m
  induction m with
  | nil =>
    intro e _ he
    simp at he
  | cons p rest ih =>
    intro e hnd he
    have hnd' : (p.1 :: keysOf rest).Nodup := by
      unfold keysOf at hnd ⊢
      rwa [List.map_cons] at hnd
    rcases List.mem_cons.mp he with he | he
    · subst he
      unfold mapGet
      rw [List.find?_cons]
      rw [show (decide (e.1 = e.1)) = true from by simp]
    · have hne : ¬ p.1 = e.1 := by
        intro hpe
        exact (List.nodup_cons.mp hnd').1
          (hpe ▸ List.mem_map.mpr ⟨e, he, rfl⟩)
      unfold mapGet
      rw [List.find?_cons]
      rw [show (decide (p.1 = e.1)) = false from by simp [hne]]
      exact ih e (List.nodup_cons.mp hnd').2 he

lemma find?_decomp {α : Type} (p : α → Bool) :
    ∀ (l : List α) (a : α), l.find? p = some a →
      ∃ l1 l2, l = l1 ++ a :: l2 ∧ ∀ x ∈ l1, p x = false := by
  intro l
  induction l with
  | nil =>
    intro a h
    simp at h
  | cons b rest ih =>
    intro a h
    rw [List.find?_cons] at h
    cases hb : p b with
    | true =>
      rw [hb] at h
      have h' : some b = some a := h
      injection h' with h2
      subst h2
      exact ⟨[], rest, rfl, by simp⟩
    | false =>
      rw [hb] at h
      have h' : rest.find? p = some a := h
      obtain ⟨l1, l2, heq, hall⟩ := ih a h'
      refine ⟨b :: l1, l2, by rw [heq]; rfl, ?_⟩
      intro x hx
      rcases List.mem_cons.mp hx with hx | hx
      · rw [hx]
        exact hb
      · exact hall x hx

lemma buildFrequency_snoc (rs : List Nat) (x : Nat) :
    buildFrequency (rs ++ [x])
      = mapSet (buildFrequency rs) x (mapGet (buildFrequency rs) x + 1) := by
  unfold buildFrequency
  rw [List.foldl_append]
  rfl

lemma buildFrequency_spec :
    ∀ rs : List Nat,
      (∀ v, mapGet (buildFrequency rs) v = countVal rs v) ∧
      (keysOf (buildFrequency rs)).Nodup ∧
      (∀ v, v ∈ keysOf (buildFrequency rs) ↔ v ∈ rs) ∧
      (∀ i j u w, (keysOf (buildFrequency rs)).get? i = some u →
        (keysOf (buildFrequency rs)).get? j = some w → i ≤ j →
        firstIdx rs u ≤ firstIdx rs w) := by
  intro rs
  induction rs using List.reverseRecOn with
  | nil =>
    refine ⟨fun v => rfl, by simp [buildFrequency, keysOf], ?_, ?_⟩
    · intro v
      simp [buildFrequency, keysOf]
    · intro i j u w hu
      simp [buildFrequency, keysOf] at hu
  | append_singleton rs x ih =>
    obtain ⟨ihget, ihnd, ihmem, ihord⟩ := ih
    rw [buildFrequency_snoc]
    refine ⟨?_, keysOf_nodup_mapSet _ _ _ ihnd, ?_, ?_⟩
    · intro v
      by_cases hv : v = x
      · subst hv
        rw [mapGet_mapSet_self, ihget, countVal_append]
        simp [countVal]
      · rw [mapGet_mapSet_ne x _ v hv, ihget, countVal_append]
        have h0 : countVal [x] v = 0 := by
          unfold countVal
          rw [if_neg (fun h => hv h.symm)]
          rfl
        rw [h0]
        omega
    · intro v
      rw [keysOf_mapSet_char]
      by_cases hx : x ∈ keysOf (buildFrequency rs)
      · rw [if_pos hx]
        constructor
        · intro h
          exact List.mem_append_left [x] ((ihmem v).mp h)
        · intro h
          rcases List.mem_append.mp h with h | h
          · exact (ihmem v).mpr h
          · have : v = x := by simpa using h
            rw [this]
            exact hx
      · rw [if_neg hx]
        constructor
        · intro h
          rcases List.mem_append.mp h with h | h
          · exact List.mem_append_left [x] ((ihmem v).mp h)
          · exact List.mem_append_right rs h
        · intro h
          rcases List.mem_append.mp h with h | h
          · exact List.mem_append_left [x] ((ihmem v).mpr h)
          · exact List.mem_append_right _ h
    · intro i j u w hu hw hij
      rw [keysOf_mapSet_char] at hu hw
      by_cases hx : x ∈ keysOf (buildFrequency rs)
      · rw [if_pos hx] at hu hw
        have hu' : u ∈ rs := (ihmem u).mp (List.get?_mem hu)
        have hw' : w ∈ rs := (ihmem w).mp (List.get?_mem hw)
        rw [firstIdx_append_of_mem u rs [x] hu', firstIdx_append_of_mem w rs [x] hw']
        exact ihord i j u w hu hw hij
      · rw [if_neg hx] at hu hw
        have hxrs : x ∉ rs := fun h => hx ((ihmem x).mpr h)
        by_cases hi : i < (keysOf (buildFrequency rs)).length
        · have hu2 : (keysOf (buildFrequency rs)).get? i = some u := by
            rw [List.get?_append hi] at hu
            exact hu
          have humem : u ∈ rs := (ihmem u).mp (List.get?_mem hu2)
          by_cases hj : j < (keysOf (buildFrequency rs)).length
          · have hw2 : (keysOf (buildFrequency rs)).get? j = some w := by
              rw [List.get?_append hj] at hw
              exact hw
            have hwmem : w ∈ rs := (ihmem w).mp (List.get?_mem hw2)
            rw [firstIdx_append_of_mem u rs [x] humem,
              firstIdx_append_of_mem w rs [x] hwmem]
            exact ihord i j u w hu2 hw2 hij
          · have hw2 : ([x] : List Nat).get?
                (j - (keysOf (buildFrequency rs)).length) = some w := by
              rw [List.get?_append_right (Nat.le_of_not_lt hj)] at hw
              exact hw
            have hj0 : j - (keysOf (buildFrequency rs)).length = 0 := by
              have hlt := (List.get?_eq_some.mp hw2).1
              simp only [List.length_singleton] at hlt
              omega
            rw [hj0] at hw2
            have hwx : w = x := by simpa using hw2.symm
            rw [hwx]
            rw [firstIdx_append_of_mem u rs [x] humem, firstIdx_snoc_self x rs hxrs]
            have := firstIdx_lt_length_of_mem u rs humem
            omega
        · have hu2 : ([x] : List Nat).get?
              (i - (keysOf (buildFrequency rs)).length) = some u := by
            rw [List.get?_append_right (Nat.le_of_not_lt hi)] at hu
            exact hu
          have hi0 : i - (keysOf (buildFrequency rs)).length = 0 := by
            have hlt := (List.get?_eq_some.mp hu2).1
            simp only [List.length_singleton] at hlt
            omega
          rw [hi0] at hu2
          have hux : u = x := by simpa using hu2.symm
          have hj2 : ¬ j < (keysOf (buildFrequency rs)).length := by omega
          have hw2 : ([x] : List Nat).get?
              (j - (keysOf (buildFrequency rs)).length) = some w := by
            rw [List.get?_append_right (Nat.le_of_not_lt hj2)] at hw
            exact hw
          have hj0 : j - (keysOf (buildFrequency rs)).length = 0 := by
            have hlt := (List.get?_eq_some.mp hw2).1
            simp only [List.length_singleton] at hlt
            omega
          rw [hj0] at hw2
          have hwx : w = x := by simpa using hw2.symm
          rw [hux, hwx]

/-- The maximum frequency recorded in the tally (`0` for an empty tally). -/
def maxSnd (freq : List (Nat × Nat)) : Nat :=
  (freq.map (fun p => p.2)).foldl max 0

lemma foldl_max_init_le : ∀ (l : List Nat) (a : Nat), a ≤ l.foldl max a := by
  intro l
  induction l with
  | nil =>
    intro a
    exact Nat.le_refl a
  | cons y ys ih =>
    intro a
    rw [List.foldl_cons]
    exact Nat.le_trans (le_max_left a y) (ih (max a y))

lemma foldl_max_le_of_mem : ∀ (l : List Nat) (a x : Nat), x ∈ l → x ≤ l.foldl max a := by
  intro l
  induction l with
  | nil =>
    intro a x hx
    simp at hx
  | cons y ys ih =>
    intro a x hx
    rw [List.foldl_cons]
    rcases List.mem_cons.mp hx with hx | hx
    · rw [hx]
      exact Nat.le_trans (le_max_right a y) (foldl_max_init_le ys (max a y))
    · exact ih (max a y) x hx

lemma foldl_max_attained : ∀ (l : List Nat) (a : Nat),
    l.foldl max a = a ∨ l.foldl max a ∈ l := by
  intro l
  induction l with
  | nil =>
    intro a
    exact Or.inl rfl
  | cons y ys ih =>
    intro a
    rw [List.foldl_cons]
    rcases ih (max a y) with h | h
    · rcases max_choice a y with hm | hm
      · exact Or.inl (by rw [h, hm])
      · exact Or.inr (by rw [h, hm]; exact List.mem_cons_self y ys)
    · exact Or.inr (List.mem_cons_of_mem y h)

lemma maxSnd_ub (freq : List (Nat × Nat)) : ∀ e ∈ freq, e.2 ≤ maxSnd freq := by
  intro e he
  unfold maxSnd
  exact foldl_max_le_of_mem (freq.map (fun p => p.2)) 0 e.2
    (List.mem_map.mpr ⟨e, he, rfl⟩)

lemma modeFold_no_improve :
    ∀ (freq : List (Nat × Nat)) (t m : Nat), (∀ e ∈ freq, e.2 ≤ m) →
      freq.foldl (fun (acc : Nat × Nat) x => if x.2 > acc.2 then (x.1, x.2) else acc) (t, m)
        = (t, m) := by
  intro freq
  induction freq with
  | nil =>
    intro t m _
    rfl
  | cons e rest ih =>
    intro t m hle
    rw [List.foldl_cons]
    have h1 : ¬ e.2 > (t, m).2 := by
      have := hle e (List.mem_cons_self e rest)
      show ¬ e.2 > m
      omega
    rw [if_neg h1]
    exact ih t m (fun e' he' => hle e' (List.mem_cons_of_mem e he'))

lemma modeFold_first_max :
    ∀ (freq : List (Nat × Nat)) (t m M : Nat),
      M ∈ freq.map (fun p => p.2) → (∀ e ∈ freq, e.2 ≤ M) → m < M →
      ∃ e, freq.find? (fun e => decide (e.2 = M)) = some e ∧
        freq.foldl (fun (acc : Nat × Nat) x => if x.2 > acc.2 then (x.1, x.2) else acc)
          (t, m) = (e.1, M) := by
  intro freq
  induction freq with
  | nil =>
    intro t m M hM
    simp at hM
  | cons e rest ih =>
    intro t m M hM hub hm
    rw [List.foldl_cons, List.find?_cons]
    by_cases he : e.2 = M
    · rw [show (decide (e.2 = M)) = true from by simp [he]]
      refine ⟨e, rfl, ?_⟩
      have hgt : e.2 > (t, m).2 := by
        show e.2 > m
        omega
      rw [if_pos hgt]
      have hstay := modeFold_no_improve rest e.1 e.2
        (fun e' he' => by rw [he]; exact hub e' (List.mem_cons_of_mem e he'))
      rw [hstay, he]
    · rw [show (decide (e.2 = M)) = false from by simp [he]]
      have hM' : M ∈ rest.map (fun p => p.2) := by
        rw [List.map_cons] at hM
        rcases List.mem_cons.mp hM with h | h
        · exact absurd h.symm he
        · exact h
      have hub' : ∀ x ∈ rest, x.2 ≤ M := fun x hx => hub x (List.mem_cons_of_mem e hx)
      by_cases hgt : e.2 > m
      · rw [if_pos (show e.2 > (t, m).2 from hgt)]
        have hlt : e.2 < M :=
          Nat.lt_of_le_of_ne (hub e (List.mem_cons_self e rest)) he
        exact ih e.1 e.2 M hM' hub' hlt
      · rw [if_neg (show ¬ e.2 > (t, m).2 from hgt)]
        exact ih t m M hM' hub' hm

lemma calcModeLoop_spec (freq : List (Nat × Nat)) (start : Nat)
    (hne : freq ≠ []) (hpos : ∀ e ∈ freq, 1 ≤ e.2) :
    ∃ e, freq.find? (fun e => decide (e.2 = maxSnd freq)) = some e ∧
      e.2 = maxSnd freq ∧ calcModeLoop freq start = e.1 := by
  obtain ⟨e0, he0⟩ := List.exists_mem_of_ne_nil freq hne
  have hub := maxSnd_ub freq
  have hMpos : 1 ≤ maxSnd freq := Nat.le_trans (hpos e0 he0) (hub e0 he0)
  have hMmem : maxSnd freq ∈ freq.map (fun p => p.2) := by
    rcases foldl_max_attained (freq.map (fun p => p.2)) 0 with h | h
    · exfalso
      have : maxSnd freq = 0 := h
      omega
    · exact h
  obtain ⟨e, hfind, hfold⟩ :=
    modeFold_first_max freq start 0 (maxSnd freq) hMmem hub hMpos
  refine ⟨e, hfind, ?_, ?_⟩
  · have := List.find?_some hfind
    simpa using this
  · unfold calcModeLoop
    rw [hfold]

/-- C8.  For a non-empty batch, `calculateStatistics` returns as `mode` a
value of maximal frequency; when several values tie for the maximum, it
returns the one whose FIRST occurrence comes earliest in the original
unsorted input order. -/
theorem claim_C8 (rs : List Nat) (h : rs ≠ []) :
    calculateStatisticsMode rs ∈ rs ∧
    (∀ v ∈ rs, countVal rs v ≤ countVal rs (calculateStatisticsMode rs)) ∧
    (∀ v ∈ rs, countVal rs v = countVal rs (calculateStatisticsMode rs) →
      firstIdx rs (calculateStatisticsMode rs) ≤ firstIdx rs v) := by
  obtain ⟨hget, hnd, hmem, hord⟩ := buildFrequency_spec rs
  cases rs with
  | nil => exact absurd rfl h
  | cons r0 rest =>
    have hfne : buildFrequency (r0 :: rest) ≠ [] := by
      intro h0
      have hr0 : r0 ∈ keysOf (buildFrequency (r0 :: rest)) :=
        (hmem r0).mpr (List.mem_cons_self r0 rest)
      rw [h0] at hr0
      simp [keysOf] at hr0
    have hpos : ∀ e ∈ buildFrequency (r0 :: rest), 1 ≤ e.2 := by
      intro e he
      have hkey : e.1 ∈ keysOf (buildFrequency (r0 :: rest)) :=
        List.mem_map.mpr ⟨e, he, rfl⟩
      have hv : e.1 ∈ r0 :: rest := (hmem e.1).mp hkey
      have heq : mapGet (buildFrequency (r0 :: rest)) e.1 = e.2 :=
        mapGet_of_mem_nodup _ e hnd he
      rw [hget] at heq
      have := countVal_pos_of_mem e.1 _ hv
      omega
    obtain ⟨e, hfind, heM, hmode⟩ :=
      calcModeLoop_spec (buildFrequency (r0 :: rest)) r0 hfne hpos
    have hmode' : calculateStatisticsMode (r0 :: rest) = e.1 := by
      unfold calculateStatisticsMode
      exact hmode
    have hemem : e ∈ buildFrequency (r0 :: rest) := List.mem_of_find?_eq_some hfind
    have hkeymem : e.1 ∈ keysOf (buildFrequency (r0 :: rest)) :=
      List.mem_map.mpr ⟨e, hemem, rfl⟩
    have hin : e.1 ∈ r0 :: rest := (hmem e.1).mp hkeymem
    have hcnt_mode : countVal (r0 :: rest) e.1 = maxSnd (buildFrequency (r0 :: rest)) := by
      have heq : mapGet (buildFrequency (r0 :: rest)) e.1 = e.2 :=
        mapGet_of_mem_nodup _ e hnd hemem
      rw [hget] at heq
      rw [heq, heM]
    refine ⟨?_, ?_, ?_⟩
    · rw [hmode']
      exact hin
    · intro v hv
      rw [hmode', hcnt_mode]
      obtain ⟨p, hp, hpk⟩ := List.mem_map.mp ((hmem v).mpr hv)
      have heqp : mapGet (buildFrequency (r0 :: rest)) p.1 = p.2 :=
        mapGet_of_mem_nodup _ p hnd hp
      rw [hget] at heqp
      rw [← hpk, heqp]
      exact maxSnd_ub _ p hp
    · intro v hv hcnt
      rw [hmode'] at hcnt ⊢
      rw [hcnt_mode] at hcnt
      obtain ⟨p, hp, hpk⟩ := List.mem_map.mp ((hmem v).mpr hv)
      have heqp : mapGet (buildFrequency (r0 :: rest)) p.1 = p.2 :=
        mapGet_of_mem_nodup _ p hnd hp
      rw [hget] at heqp
      have hpcnt : p.2 = maxSnd (buildFrequency (r0 :: rest)) := by
        rw [← heqp, hpk]
        exact hcnt
      obtain ⟨l1, l2, hsplit, hall⟩ := find?_decomp _ (buildFrequency (r0 :: rest)) e hfind
      have hpnotl1 : p ∉ l1 := by
        intro hpl1
        have := hall p hpl1
        simp [hpcnt] at this
      have hpin : p ∈ e :: l2 := by
        rw [hsplit] at hp
        rcases List.mem_append.mp hp with hcontra | hok
        · exact absurd hcontra hpnotl1
        · exact hok
      by_cases hpe : p = e
      · rw [← hpk, hpe]
      · have hpl2 : p ∈ l2 := by
          rcases List.mem_cons.mp hpin with hcontra | hok
          · exact absurd hcontra hpe
          · exact hok
        have hkeys_split : keysOf (buildFrequency (r0 :: rest))
            = keysOf l1 ++ e.1 :: keysOf l2 := by
          rw [hsplit]
          unfold keysOf
          rw [List.map_append]
          rfl
        have hie : (keysOf (buildFrequency (r0 :: rest))).get? (keysOf l1).length
            = some e.1 := by
          rw [hkeys_split, List.get?_append_right (Nat.le_refl _)]
          simp
        obtain ⟨j2, hj2⟩ :=
          List.get?_of_mem (List.mem_map.mpr ⟨p, hpl2, rfl⟩ :
            p.1 ∈ keysOf l2)
        have hjw : (keysOf (buildFrequency (r0 :: rest))).get?
            ((keysOf l1).length + 1 + j2) = some p.1 := by
          rw [hkeys_split, List.get?_append_right (by omega)]
          have harith : (keysOf l1).length + 1 + j2 - (keysOf l1).length = j2 + 1 := by
            omega
          rw [harith, List.get?_cons_succ]
          exact hj2
        have hres := hord (keysOf l1).length ((keysOf l1).length + 1 + j2) e.1 p.1
          hie hjw (by omega)
        rw [hpk] at hres
        exact hres

/-- C8, witness: `[2, 1, 1, 2]` — both values occur twice; the mode is `2`,
the value first encountered in the original order. -/
theorem claim_C8_w :
    (([2, 1, 1, 2] : List Nat) ≠ []) ∧
    (calculateStatisticsMode [2, 1, 1, 2] ∈ ([2, 1, 1, 2] : List Nat) ∧
    (∀ v ∈ ([2, 1, 1, 2] : List Nat),
      countVal [2, 1, 1, 2] v ≤ countVal [2, 1, 1, 2] (calculateStatisticsMode [2, 1, 1, 2])) ∧
    (∀ v ∈ ([2, 1, 1, 2] : List Nat),
      countVal [2, 1, 1, 2] v = countVal [2, 1, 1, 2] (calculateStatisticsMode [2, 1, 1, 2]) →
      firstIdx [2, 1, 1, 2] (calculateStatisticsMode [2, 1, 1, 2])
        ≤ firstIdx [2, 1, 1, 2] v)) := by
  exact ⟨by decide, claim_C8 [2, 1, 1, 2] (by decide)⟩

end VotingRings
